import Mathlib

/-!
# Verification of the fend-sentry log parsing and error-aggregation engine

This file is a shallow embedding, in Lean 4, of the core of
`src/parser.py` (classes `LogEntry`, `ErrorGroup`, `LogParser`): the
line-format recognizer cascade, the multi-line continuation/traceback state
machine, timestamp normalization, the MD5-based error-signature algorithm,
error grouping, and summary generation.

Modelling conventions:

* Python strings are modelled as `List Char` (`Str`); the character classes
  of the regular expressions (`\w`, `\s`, `\d`, ...) are modelled over ASCII.
* Each regular expression of the source is hand-translated into a
  deterministic parsing function that reproduces the leftmost/greedy
  backtracking semantics of the Python `re` module on the concrete pattern
  (the relevant backtracking cases were worked out pattern by pattern).
* `datetime` values are modelled by `DT`: microseconds since the epoch plus
  an optional UTC offset (`none` = naive datetime, `some off` = aware).
  Python raises `TypeError` when comparing naive with aware datetimes;
  comparisons are therefore modelled in `Except Unit`, and the grouping and
  summary passes are fallible exactly where the source performs such
  comparisons.
* `datetime.now()` is nondeterministic wall-clock input; it is passed to the
  summary builder as an explicit parameter `now` (a naive epoch-microsecond
  value), as is the line counter of `enumerate(log_lines, 1)`.
* `hashlib.md5` is implemented in full (`md5Hex`), so error signatures are
  the genuine first 8 hex characters of the MD5 digest of the pipe-joined
  signature string, as in the source.
-/

abbrev Str := List Char

def str (s : String) : Str := s.data

/-- ASCII model of Python whitespace for `\s`, `str.strip`, `str.rstrip`. -/
def isWSC (c : Char) : Bool :=
  c = ' ' || c = '\t' || c = '\n' || c = '\r' || c = '\x0b' || c = '\x0c'

/-- ASCII model of the regex class `\w`. -/
def isWordC (c : Char) : Bool :=
  c.isAlpha || c.isDigit || c = '_'

/-- `str.rstrip()` (ASCII whitespace). -/
def rstrip (s : Str) : Str :=
  (s.reverse.dropWhile isWSC).reverse

/-- `str.strip()` (ASCII whitespace). -/
def strip (s : Str) : Str :=
  (s.dropWhile isWSC).reverse.dropWhile isWSC |>.reverse

/-- `str.upper()` (ASCII). -/
def upperS (s : Str) : Str := s.map Char.toUpper

/-- Split at the first occurrence of `c`: returns the part strictly before it
and the part strictly after it, or `none` when `c` does not occur. -/
def splitAtFirst (c : Char) : Str → Option (Str × Str)
  | [] => none
  | x :: xs =>
    if x = c then some ([], xs)
    else (splitAtFirst c xs).map (fun p => (x :: p.1, p.2))

/-- Whether `pat` occurs as a contiguous substring (Python `in`). -/
def containsSub (s pat : Str) : Bool :=
  match s with
  | [] => decide (pat = [])
  | _ :: rest => pat.isPrefixOf s || containsSub rest pat

def digitVal (c : Char) : Nat := c.toNat - 48

def digitsToNat (l : Str) : Nat :=
  l.foldl (fun a c => a * 10 + digitVal c) 0

instance {e a : Type} [DecidableEq e] [DecidableEq a] : DecidableEq (Except e a) :=
  fun x y =>
    match x, y with
    | .ok u, .ok v =>
      if h : u = v then isTrue (by rw [h]) else isFalse (by simp [h])
    | .error u, .error v =>
      if h : u = v then isTrue (by rw [h]) else isFalse (by simp [h])
    | .ok _, .error _ => isFalse (by simp)
    | .error _, .ok _ => isFalse (by simp)

/-! ## Time model -/

/-- Python `datetime`, reduced to what the engine observes: microseconds
since the Unix epoch (of the wall-clock field values) plus an optional UTC
offset in microseconds (`none` = offset-naive). -/
structure DT where
  us : Int
  tz : Option Int
deriving DecidableEq, Repr

/-- `a < b` on `datetime`; mixing naive and aware raises `TypeError`,
modelled as `Except.error`. Aware datetimes compare by their UTC instant. -/
def dtLt (a b : DT) : Except Unit Bool :=
  match a.tz, b.tz with
  | none, none => .ok (decide (a.us < b.us))
  | some x, some y => .ok (decide (a.us - x < b.us - y))
  | _, _ => .error ()

/-- `a > b` on `datetime` (same error behaviour). -/
def dtGt (a b : DT) : Except Unit Bool := dtLt b a

/-- Days from 1970-01-01 of a proleptic-Gregorian civil date (the year is at
least 1 here, so Lean's truncated `Int` division agrees with floor). -/
def daysFromCivil (y m d : Int) : Int :=
  let y2 := if m ≤ 2 then y - 1 else y
  let era := y2 / 400
  let yoe := y2 - era * 400
  let mp := (m + 9) % 12
  let doy := (153 * mp + 2) / 5 + d - 1
  let doe := yoe * 365 + yoe / 4 - yoe / 100 + doy
  era * 146097 + doe - 719468

def epochMicros (y mo d h mi s f : Nat) : Int :=
  (daysFromCivil y mo d * 86400 + (h * 3600 + mi * 60 + s : Nat)) * 1000000 + f

/-! ## `datetime.strptime`

CPython compiles each format directive into a specific regex fragment
(`_strptime.TimeRE`); a literal whitespace run in the format becomes `\s+`,
and the whole pattern must consume the entire input.  Each directive below
is modelled by a function producing its possible `(value, rest)` outcomes in
the preference (greedy/alternation) order of the corresponding fragment; the
format as a whole is matched depth-first, which is exactly the regex
backtracking order. -/

/-- Parsed field values of `strptime` (CPython defaults: 1900-01-01). -/
structure TParts where
  py : Nat := 1900
  pmo : Nat := 1
  pd : Nat := 1
  ph : Nat := 0
  pmi : Nat := 0
  ps : Nat := 0
  pf : Nat := 0
  ptz : Option Int := none
deriving Repr

/-- One directive (or literal) of a `strptime` format string. -/
inductive FComp where
  | lit (c : Char)
  | wsp
  | year | mon2 | day2 | hour2 | min2 | sec2 | frac | monAbbr | tzoff
deriving Repr

def isD (c : Char) : Bool := c.isDigit

/-- `%m` fragment `1[0-2]|0[1-9]|[1-9]`, alternatives in order. -/
def cMon (l : Str) : List (Nat × Str) :=
  (match l with
   | '1' :: c :: rest =>
     if c = '0' || c = '1' || c = '2' then [(10 + digitVal c, rest)] else []
   | _ => []) ++
  (match l with
   | '0' :: c :: rest =>
     if '1' ≤ c && c ≤ '9' then [(digitVal c, rest)] else []
   | _ => []) ++
  (match l with
   | c :: rest =>
     if '1' ≤ c && c ≤ '9' then [(digitVal c, rest)] else []
   | _ => [])

/-- `%d` fragment `3[01]|[12]\d|0[1-9]|[1-9]`. -/
def cDay (l : Str) : List (Nat × Str) :=
  (match l with
   | '3' :: c :: rest =>
     if c = '0' || c = '1' then [(30 + digitVal c, rest)] else []
   | _ => []) ++
  (match l with
   | a :: c :: rest =>
     if (a = '1' || a = '2') && isD c then [(digitVal a * 10 + digitVal c, rest)] else []
   | _ => []) ++
  (match l with
   | '0' :: c :: rest =>
     if '1' ≤ c && c ≤ '9' then [(digitVal c, rest)] else []
   | _ => []) ++
  (match l with
   | c :: rest =>
     if '1' ≤ c && c ≤ '9' then [(digitVal c, rest)] else []
   | _ => [])

/-- `%H` fragment `2[0-3]|[0-1]\d|\d`. -/
def cHour (l : Str) : List (Nat × Str) :=
  (match l with
   | '2' :: c :: rest =>
     if '0' ≤ c && c ≤ '3' then [(20 + digitVal c, rest)] else []
   | _ => []) ++
  (match l with
   | a :: c :: rest =>
     if (a = '0' || a = '1') && isD c then [(digitVal a * 10 + digitVal c, rest)] else []
   | _ => []) ++
  (match l with
   | c :: rest => if isD c then [(digitVal c, rest)] else []
   | _ => [])

/-- `%M` fragment `[0-5]\d|\d`. -/
def cMin (l : Str) : List (Nat × Str) :=
  (match l with
   | a :: c :: rest =>
     if ('0' ≤ a && a ≤ '5') && isD c then [(digitVal a * 10 + digitVal c, rest)] else []
   | _ => []) ++
  (match l with
   | c :: rest => if isD c then [(digitVal c, rest)] else []
   | _ => [])

/-- `%S` fragment `6[0-1]|[0-5]\d|\d`. -/
def cSec (l : Str) : List (Nat × Str) :=
  (match l with
   | '6' :: c :: rest =>
     if c = '0' || c = '1' then [(60 + digitVal c, rest)] else []
   | _ => []) ++
  (match l with
   | a :: c :: rest =>
     if ('0' ≤ a && a ≤ '5') && isD c then [(digitVal a * 10 + digitVal c, rest)] else []
   | _ => []) ++
  (match l with
   | c :: rest => if isD c then [(digitVal c, rest)] else []
   | _ => [])

/-- `%f` fragment `[0-9]{1,6}` (greedy, so longest first); CPython scales
the captured digits up to microseconds. -/
def cFrac (l : Str) : List (Nat × Str) :=
  (List.range 6).reverse.filterMap fun k =>
    let n := k + 1
    let ds := l.take n
    if ds.length = n && ds.all isD then
      some (digitsToNat ds * 10 ^ (6 - n), l.drop n)
    else none

def monthNames : List Str :=
  [str "jan", str "feb", str "mar", str "apr", str "may", str "jun",
   str "jul", str "aug", str "sep", str "oct", str "nov", str "dec"]

/-- `%b`: case-insensitive abbreviated month name. -/
def cMonAbbr (l : Str) : List (Nat × Str) :=
  let low := (l.take 3).map Char.toLower
  match (monthNames.indexOf? low) with
  | some i => if (l.take 3).length = 3 then [(i + 1, l.drop 3)] else []
  | none => []

def twoDigits : Str → Option (Nat × Str)
  | a :: b :: rest => if isD a && isD b then some (digitVal a * 10 + digitVal b, rest) else none
  | _ => none

/-- `%z` fragment `[+-]\d\d:?\d\d(:?\d\d(\.\d{1,6})?)?|Z` (greedy).  Returns
the UTC offset in microseconds.  CPython builds `timezone(timedelta(...))`,
which requires the offset to be strictly less than 24 hours in magnitude;
an out-of-range offset raises `ValueError`, i.e. the whole attempt fails,
which coincides with producing no candidate here (see the fidelity note in
the comment of `tryFmts`). -/
def cTz (l : Str) : List (Int × Str) :=
  match l with
  | 'Z' :: rest => [((0 : Int), rest)]
  | sgn :: rest =>
    if sgn = '+' || sgn = '-' then
      match twoDigits rest with
      | none => []
      | some (hh, r1) =>
        let r1b := match r1 with
          | ':' :: r => r
          | _ => r1
        match twoDigits r1b with
        | none => []
        | some (mm, r2) =>
          let base : Int := (hh * 3600 + mm * 60 : Nat)
          -- optional seconds (with optional colon), then optional fraction
          let withSec : List (Int × Str) :=
            let r2b := match r2 with
              | ':' :: r => r
              | _ => r2
            match twoDigits r2b with
            | none => []
            | some (ss, r3) =>
              let secBase : Int := base + (ss : Nat)
              let withFrac : List (Int × Str) :=
                match r3 with
                | '.' :: r4 =>
                  (List.range 6).reverse.filterMap fun k =>
                    let n := k + 1
                    let ds := r4.take n
                    if ds.length = n && ds.all isD then
                      some (secBase * 1000000 + digitsToNat ds * 10 ^ (6 - n), r4.drop n)
                    else none
                | _ => []
              withFrac ++ [(secBase * 1000000, r3)]
          let cands := withSec ++ [(base * 1000000, r2)]
          (cands.map fun p => (if sgn = '-' then -p.1 else p.1, p.2)).filter
            fun p => decide (p.1 < 86400000000 ∧ -86400000000 < p.1)
    else []
  | [] => []

/-- Candidate `(updated parts, rest)` list of one directive, in regex
preference order. -/
def cands (c : FComp) (p : TParts) (l : Str) : List (TParts × Str) :=
  match c with
  | .lit ch => match l with
    | x :: rest => if x = ch then [(p, rest)] else []
    | [] => []
  | .wsp =>
    let (w, r) := l.span isWSC
    if w.isEmpty then [] else [(p, r)]
  | .year => match l with
    | a :: b :: c2 :: d :: rest =>
      if isD a && isD b && isD c2 && isD d then
        [({p with py := digitsToNat [a, b, c2, d]}, rest)]
      else []
    | _ => []
  | .mon2 => (cMon l).map fun q => ({p with pmo := q.1}, q.2)
  | .day2 => (cDay l).map fun q => ({p with pd := q.1}, q.2)
  | .hour2 => (cHour l).map fun q => ({p with ph := q.1}, q.2)
  | .min2 => (cMin l).map fun q => ({p with pmi := q.1}, q.2)
  | .sec2 => (cSec l).map fun q => ({p with ps := q.1}, q.2)
  | .frac => (cFrac l).map fun q => ({p with pf := q.1}, q.2)
  | .monAbbr => (cMonAbbr l).map fun q => ({p with pmo := q.1}, q.2)
  | .tzoff => (cTz l).map fun q => ({p with ptz := some q.1}, q.2)

/-- Depth-first regex backtracking as an explicit worklist machine (kept
structurally recursive on a fuel counter so that it reduces inside the
kernel).  Each popped node is either a finished format (accept iff the
input is consumed) or expands its first directive, pushing the candidate
continuations in preference order. -/
def dfsFmt : Nat → List (List FComp × TParts × Str) → Option TParts
  | _, [] => none
  | 0, _ :: _ => none
  | fuel + 1, (fmt, p, s) :: stack =>
    match fmt with
    | [] => if s.isEmpty then some p else dfsFmt fuel stack
    | c :: fs =>
      dfsFmt fuel (((cands c p s).map (fun q => (fs, q.1, q.2))) ++ stack)

/-- Fuel that dominates the size of any backtracking tree of a format: the
branching factor of a directive is at most 6 (`%f`), so the tree of a
format of length `n` has fewer than `7 ^ (n + 1)` nodes. -/
def fmtFuel (fmt : List FComp) : Nat := 7 ^ (fmt.length + 1)

/-- Match of a format against the whole input; the input must be fully
consumed (CPython raises `unconverted data remains` otherwise). -/
def runFmt (fmt : List FComp) (p : TParts) (s : Str) : Option TParts :=
  dfsFmt (fmtFuel fmt) [(fmt, p, s)]

def isLeapYear (y : Nat) : Bool :=
  (y % 4 = 0 && y % 100 ≠ 0) || y % 400 = 0

def daysInMonth (y mo : Nat) : Nat :=
  if mo = 2 then (if isLeapYear y then 29 else 28)
  else if mo = 4 || mo = 6 || mo = 9 || mo = 11 then 30
  else 31

/-- Field validation performed by the `datetime` constructor inside
`strptime`; failure raises `ValueError`, caught by `_parse_timestamp`. -/
def buildDT (p : TParts) : Option DT :=
  if 1 ≤ p.py && 1 ≤ p.pmo && p.pmo ≤ 12 && 1 ≤ p.pd &&
     p.pd ≤ daysInMonth p.py p.pmo && p.ph ≤ 23 && p.pmi ≤ 59 && p.ps ≤ 59 then
    some ⟨epochMicros p.py p.pmo p.pd p.ph p.pmi p.ps p.pf, p.ptz⟩
  else none

def fmtA : List FComp :=  -- %Y-%m-%d %H:%M:%S,%f
  [.year, .lit '-', .mon2, .lit '-', .day2, .wsp,
   .hour2, .lit ':', .min2, .lit ':', .sec2, .lit ',', .frac]

def fmtB : List FComp :=  -- %Y-%m-%d %H:%M:%S.%f
  [.year, .lit '-', .mon2, .lit '-', .day2, .wsp,
   .hour2, .lit ':', .min2, .lit ':', .sec2, .lit '.', .frac]

def fmtC : List FComp :=  -- %Y-%m-%d %H:%M:%S
  [.year, .lit '-', .mon2, .lit '-', .day2, .wsp,
   .hour2, .lit ':', .min2, .lit ':', .sec2]

def fmtD : List FComp :=  -- %d/%b/%Y %H:%M:%S
  [.day2, .lit '/', .monAbbr, .lit '/', .year, .wsp,
   .hour2, .lit ':', .min2, .lit ':', .sec2]

/-- %d/%b/%Y:%H:%M:%S %z -/
def fmtE : List FComp :=
  [.day2, .lit '/', .monAbbr, .lit '/', .year, .lit ':',
   .hour2, .lit ':', .min2, .lit ':', .sec2, .wsp, .tzoff]

def tsFmts : List (List FComp) := [fmtA, fmtB, fmtC, fmtD, fmtE]

/-- `TIMESTAMP_PATTERNS` tried in order; a `ValueError` (either a regex
mismatch or a field rejected by the `datetime` constructor) moves on to the
next format. -/
def tryFmts (s : Str) : List (List FComp) → Option DT
  | [] => none
  | f :: fs =>
    match runFmt f {} s with
    | some p =>
      match buildDT p with
      | some dt => some dt
      | none => tryFmts s fs
    | none => tryFmts s fs

def isTsA (c : Char) : Bool := isD c || c = '-'
def isTsB (c : Char) : Bool := isD c || c = ':' || c = ',' || c = '.'

/-- Attempt of the relaxed fallback regex `([0-9-]+\s+[0-9:,\.]+)` anchored
at the head of `l` (each character class is disjoint from its successor, so
greedy runs are forced). -/
def fbAt (l : Str) : Option Str :=
  let (a, r0) := l.span isTsA
  if a.isEmpty then none else
  let (w, r1) := r0.span isWSC
  if w.isEmpty then none else
  let (b, _) := r1.span isTsB
  if b.isEmpty then none else some (a ++ w ++ b)

/-- Leftmost match of the fallback regex (`re.search`). -/
def fbSearch : Str → Option Str
  | [] => none
  | c :: rest =>
    match fbAt (c :: rest) with
    | some g => some g
    | none => fbSearch rest

/-- `LogParser._parse_timestamp`. -/
def parseTimestampStr (raw : Str) : Option DT :=
  let s := strip raw
  match tryFmts s tsFmts with
  | some dt => some dt
  | none =>
    match fbSearch s with
    | some g => tryFmts g tsFmts
    | none => none

/-! ## Line recognizers (`DJANGO_LOG_PATTERNS`)

Each pattern is translated with its exact leftmost/greedy backtracking
semantics.  The whitespace-vs-negated-class interactions (`\s+([^:]+):` and
`\s+([^-]+)\s+-`) were worked out by hand: writing `R` for the region
between the preceding token and the first following delimiter and `W` for
the length of the leading whitespace run of `R`, the regex engine commits
to `k = min W (R.length - 1)` whitespace characters (one fewer slot when a
trailing `\s+` also needs a character), and the semantics below follow. -/

def isTsC (c : Char) : Bool := isD c || c = ':' || c = ','

/-- The tail `\s*(.+)$` applied to the remainder `r` (no newlines occur in a
single log line, so `.` matches every remaining character). -/
def tailMsg (r : Str) : Option Str :=
  if r.isEmpty then none
  else
    let k := (r.takeWhile isWSC).length
    some (r.drop (min k (r.length - 1)))

/-- `^\[([^\]]+)\]\s+(\w+)\s+([^:]+):\s*(.+)$` (standard Django format). -/
def pP1 (l : Str) : Option (Str × Str × Str × Str) :=
  match l with
  | '[' :: rest =>
    match splitAtFirst ']' rest with
    | none => none
    | some (g1, r1) =>
      if g1.isEmpty then none else
      let (w1, r2) := r1.span isWSC
      if w1.isEmpty then none else
      let (g2, r3) := r2.span isWordC
      if g2.isEmpty then none else
      match splitAtFirst ':' r3 with
      | none => none
      | some (rg, r5) =>
        let k := min (rg.takeWhile isWSC).length (rg.length - 1)
        if k = 0 then none else
        match tailMsg r5 with
        | none => none
        | some msg => some (g1, g2, rg.drop k, msg)
  | _ => none

/-- `^([0-9-]+\s+[0-9:,]+)\s+-\s+([^-]+)\s+-\s+(\w+)\s+-\s*(.+)$`
(the "Python logging" format; the captured timestamp keeps the literal
whitespace run between its two halves). -/
def pP2 (l : Str) : Option (Str × Str × Str × Str) :=
  let (a, r0) := l.span isTsA
  if a.isEmpty then none else
  let (w, r1) := r0.span isWSC
  if w.isEmpty then none else
  let (b, r2) := r1.span isTsC
  if b.isEmpty then none else
  let g1 := a ++ w ++ b
  let (w2, r3) := r2.span isWSC
  if w2.isEmpty then none else
  match r3 with
  | '-' :: r4 =>
    match splitAtFirst '-' r4 with
    | none => none
    | some (sg, r6) =>
      let k := min (sg.takeWhile isWSC).length (sg.length - 2)
      if k = 0 then none else
      if !(match sg.getLast? with | some c => isWSC c | none => false) then none else
      let g2 := (sg.drop k).dropLast
      let (w4, r7) := r6.span isWSC
      if w4.isEmpty then none else
      let (g3, r8) := r7.span isWordC
      if g3.isEmpty then none else
      let (w5, r9) := r8.span isWSC
      if w5.isEmpty then none else
      match r9 with
      | '-' :: r10 =>
        match tailMsg r10 with
        | none => none
        | some msg => some (g1, g2, g3, msg)
      | _ => none
  | _ => none

/-- `^([0-9-]+\s+[0-9:,]+)\s+(\w+):\s*(.+)$` (simple format). -/
def pP3 (l : Str) : Option (Str × Str × Str) :=
  let (a, r0) := l.span isTsA
  if a.isEmpty then none else
  let (w, r1) := r0.span isWSC
  if w.isEmpty then none else
  let (b, r2) := r1.span isTsC
  if b.isEmpty then none else
  let g1 := a ++ w ++ b
  let (w2, r3) := r2.span isWSC
  if w2.isEmpty then none else
  let (g2, r4) := r3.span isWordC
  if g2.isEmpty then none else
  match r4 with
  | ':' :: r5 =>
    match tailMsg r5 with
    | none => none
    | some msg => some (g1, g2, msg)
  | _ => none

/-- `^\[([^\]]+)\]\s+\[(\w+)\]\s*(.+)$` (Gunicorn/uWSGI format). -/
def pP4 (l : Str) : Option (Str × Str × Str) :=
  match l with
  | '[' :: rest =>
    match splitAtFirst ']' rest with
    | none => none
    | some (g1, r1) =>
      if g1.isEmpty then none else
      let (w1, r2) := r1.span isWSC
      if w1.isEmpty then none else
      match r2 with
      | '[' :: r3 =>
        let (g2, r4) := r3.span isWordC
        if g2.isEmpty then none else
        match r4 with
        | ']' :: r5 =>
          match tailMsg r5 with
          | none => none
          | some msg => some (g1, g2, msg)
        | _ => none
      | _ => none
  | _ => none

/-- `LogParser._parse_log_line`: first matching pattern wins; 4-group
patterns unpack as `(timestamp, level, logger, message)` (which, for the
second pattern, assigns the *source* field to `level` and the *LEVEL* field
to `logger`); the 3-group patterns default the logger to `django`
or, for the Gunicorn pattern, `gunicorn`. -/
def parseLogLine (l : Str) : Option (Option DT × Str × Str × Str) :=
  match pP1 l with
  | some (t, lv, lg, m) => some (parseTimestampStr t, upperS lv, strip lg, m)
  | none =>
    match pP2 l with
    | some (t, lv, lg, m) => some (parseTimestampStr t, upperS lv, strip lg, m)
    | none =>
      match pP3 l with
      | some (t, lv, m) => some (parseTimestampStr t, upperS lv, str "django", m)
      | none =>
        match pP4 l with
        | some (t, lv, m) => some (parseTimestampStr t, upperS lv, str "gunicorn", m)
        | none => none

/-! ## Metadata extraction (`LogEntry._extract_metadata`) -/

/-- Attempt of `\b(?:[0-9]{1,3}\.){3}[0-9]{1,3}\b` anchored at the current
position: each octet must be a full digit run of length 1–3 (a longer run
can never satisfy the following literal or boundary). -/
def ipOctet (l : Str) : Option (Str × Str) :=
  let (d, r) := l.span isD
  if d.isEmpty || decide (3 < d.length) then none else some (d, r)

def ipAt (l : Str) : Option Str :=
  match ipOctet l with
  | none => none
  | some (d1, r1) =>
    match r1 with
    | '.' :: r2 =>
      match ipOctet r2 with
      | none => none
      | some (d2, r3) =>
        match r3 with
        | '.' :: r4 =>
          match ipOctet r4 with
          | none => none
          | some (d3, r5) =>
            match r5 with
            | '.' :: r6 =>
              match ipOctet r6 with
              | none => none
              | some (d4, r7) =>
                if (match r7 with | [] => true | c :: _ => !isWordC c) then
                  some (d1 ++ '.' :: d2 ++ '.' :: d3 ++ '.' :: d4)
                else none
            | _ => none
        | _ => none
    | _ => none

def searchIpGo (prev : Option Char) : Str → Option Str
  | [] => none
  | c :: rest =>
    let boundary := match prev with | none => true | some p => !isWordC p
    match (if boundary then ipAt (c :: rest) else none) with
    | some g => some g
    | none => searchIpGo (some c) rest

/-- Leftmost match of the IPv4 pattern (`re.search`). -/
def searchIp (l : Str) : Option Str := searchIpGo none l

/-- For `"[A-Z]+ ([^"]+) HTTP`: the greedy `[^"]+` commits to the *last*
occurrence of `" HTTP"` inside the quote-free segment. -/
def lastHTTPSplit (seg : Str) : Option Str :=
  let pat := str " HTTP"
  ((List.range (seg.length + 1)).filter
    (fun q => decide (1 ≤ q) && pat.isPrefixOf (seg.drop q))).getLast?.map seg.take

def urlAt (l : Str) : Option Str :=
  match l with
  | '"' :: r1 =>
    let (m, r2) := r1.span (fun c => 'A' ≤ c && c ≤ 'Z')
    if m.isEmpty then none else
    match r2 with
    | ' ' :: r3 => lastHTTPSplit (r3.takeWhile (fun c => c ≠ '"'))
    | _ => none
  | _ => none

def searchUrl : Str → Option Str
  | [] => none
  | c :: rest =>
    match urlAt (c :: rest) with
    | some g => some g
    | none => searchUrl rest

def statusAt : Str → Option Nat
  | '"' :: ' ' :: a :: b :: c :: ' ' :: _ =>
    if isD a && isD b && isD c then some (digitsToNat [a, b, c]) else none
  | _ => none

/-- Leftmost match of `" (\d{3}) `. -/
def searchStatus : Str → Option Nat
  | [] => none
  | c :: rest =>
    match statusAt (c :: rest) with
    | some n => some n
    | none => searchStatus rest

def isRidC (c : Char) : Bool := ('a' ≤ c && c ≤ 'f') || isD c || c = '-'

/-- Leftmost match of `rid=([a-f0-9-]+)`. -/
def searchRid : Str → Option Str
  | 'r' :: 'i' :: 'd' :: '=' :: r =>
    let (g, _) := r.span isRidC
    if g.isEmpty then searchRid ('i' :: 'd' :: '=' :: r) else some g
  | _ :: rest => searchRid rest
  | [] => none

/-! ## MD5 (`hashlib.md5`), over a byte list, digest as lowercase hex -/

def MOD32 : Nat := 4294967296

def add32 (a b : Nat) : Nat := (a + b) % MOD32

def not32 (a : Nat) : Nat := 4294967295 - a % MOD32

def rotl32 (x n : Nat) : Nat :=
  let y := x % MOD32
  (y * 2 ^ n + y / 2 ^ (32 - n)) % MOD32

def md5K : List Nat :=
  [0xd76aa478, 0xe8c7b756, 0x242070db, 0xc1bdceee,
   0xf57c0faf, 0x4787c62a, 0xa8304613, 0xfd469501,
   0x698098d8, 0x8b44f7af, 0xffff5bb1, 0x895cd7be,
   0x6b901122, 0xfd987193, 0xa679438e, 0x49b40821,
   0xf61e2562, 0xc040b340, 0x265e5a51, 0xe9b6c7aa,
   0xd62f105d, 0x02441453, 0xd8a1e681, 0xe7d3fbc8,
   0x21e1cde6, 0xc33707d6, 0xf4d50d87, 0x455a14ed,
   0xa9e3e905, 0xfcefa3f8, 0x676f02d9, 0x8d2a4c8a,
   0xfffa3942, 0x8771f681, 0x6d9d6122, 0xfde5380c,
   0xa4beea44, 0x4bdecfa9, 0xf6bb4b60, 0xbebfbc70,
   0x289b7ec6, 0xeaa127fa, 0xd4ef3085, 0x04881d05,
   0xd9d4d039, 0xe6db99e5, 0x1fa27cf8, 0xc4ac5665,
   0xf4292244, 0x432aff97, 0xab9423a7, 0xfc93a039,
   0x655b59c3, 0x8f0ccc92, 0xffeff47d, 0x85845dd1,
   0x6fa87e4f, 0xfe2ce6e0, 0xa3014314, 0x4e0811a1,
   0xf7537e82, 0xbd3af235, 0x2ad7d2bb, 0xeb86d391]

def md5S : List Nat :=
  [7, 12, 17, 22, 7, 12, 17, 22, 7, 12, 17, 22, 7, 12, 17, 22,
   5, 9, 14, 20, 5, 9, 14, 20, 5, 9, 14, 20, 5, 9, 14, 20,
   4, 11, 16, 23, 4, 11, 16, 23, 4, 11, 16, 23, 4, 11, 16, 23,
   6, 10, 15, 21, 6, 10, 15, 21, 6, 10, 15, 21, 6, 10, 15, 21]

/-- Little-endian 32-bit words of a 64-byte chunk. -/
def leWords : List Nat → List Nat
  | b0 :: b1 :: b2 :: b3 :: rest =>
    (b0 + 256 * b1 + 65536 * b2 + 16777216 * b3) :: leWords rest
  | _ => []

def md5Round (M : List Nat) (st : Nat × Nat × Nat × Nat) (i : Nat) :
    Nat × Nat × Nat × Nat :=
  let a := st.1
  let b := st.2.1
  let c := st.2.2.1
  let d := st.2.2.2
  let f :=
    if i < 16 then Nat.lor (Nat.land b c) (Nat.land (not32 b) d)
    else if i < 32 then Nat.lor (Nat.land d b) (Nat.land (not32 d) c)
    else if i < 48 then Nat.xor (Nat.xor b c) d
    else Nat.xor c (Nat.lor b (not32 d))
  let g :=
    if i < 16 then i
    else if i < 32 then (5 * i + 1) % 16
    else if i < 48 then (3 * i + 5) % 16
    else (7 * i) % 16
  let tmp := add32 (add32 (add32 a f) (md5K.getD i 0)) (M.getD g 0)
  (d, add32 b (rotl32 tmp (md5S.getD i 0)), b, c)

def md5Chunk (st : Nat × Nat × Nat × Nat) (chunk : List Nat) :
    Nat × Nat × Nat × Nat :=
  let M := leWords chunk
  let r := (List.range 64).foldl (md5Round M) st
  (add32 st.1 r.1, add32 st.2.1 r.2.1, add32 st.2.2.1 r.2.2.1,
   add32 st.2.2.2 r.2.2.2)

/-- 8 little-endian bytes of the bit length. -/
def le8 (n : Nat) : List Nat :=
  [n % 256, n / 256 % 256, n / 65536 % 256, n / 16777216 % 256,
   n / 4294967296 % 256, n / 1099511627776 % 256,
   n / 281474976710656 % 256, n / 72057594037927936 % 256]

def md5Pad (msg : List Nat) : List Nat :=
  let len := msg.length
  let z := (119 - len % 64) % 64
  msg ++ 128 :: List.replicate z 0 ++ le8 (len * 8 % 2 ^ 64)

/-- 64-byte chunking, structurally recursive on a fuel counter (the padded
message length is a multiple of 64, and the fuel `l.length` dominates the
number of chunks). -/
def md5ChunksF : Nat → List Nat → List (List Nat)
  | _, [] => []
  | 0, _ :: _ => []
  | fuel + 1, l => l.take 64 :: md5ChunksF fuel (l.drop 64)

def md5Chunks (l : List Nat) : List (List Nat) := md5ChunksF l.length l

def hexDigit (n : Nat) : Char :=
  if n < 10 then Char.ofNat (48 + n) else Char.ofNat (87 + n)

def byteHex (b : Nat) : Str := [hexDigit (b / 16), hexDigit (b % 16)]

def le4 (w : Nat) : List Nat :=
  [w % 256, w / 256 % 256, w / 65536 % 256, w / 16777216 % 256]

def md5Hex (msg : List Nat) : Str :=
  let st := (md5Chunks (md5Pad msg)).foldl md5Chunk
    (0x67452301, 0xefcdab89, 0x98badcfe, 0x10325476)
  ((le4 st.1 ++ le4 st.2.1 ++ le4 st.2.2.1 ++ le4 st.2.2.2).map byteHex).flatten

/-- Python `str.encode()` (UTF-8). -/
def utf8Char (c : Char) : List Nat :=
  let n := c.toNat
  if n < 128 then [n]
  else if n < 2048 then [192 + n / 64, 128 + n % 64]
  else if n < 65536 then [224 + n / 4096, 128 + n / 64 % 64, 128 + n % 64]
  else [240 + n / 262144, 128 + n / 4096 % 64, 128 + n / 64 % 64, 128 + n % 64]

def utf8Bytes (s : Str) : List Nat := (s.map utf8Char).flatten

/-! ## Data model: `LogEntry`, `ErrorGroup` -/

structure LogEntry where
  timestamp : Option DT := none
  level : Str := []
  logger : Str := []
  message : Str := []
  traceback : List Str := []
  raw_line : Str := []
  line_number : Nat := 0
  request_id : Option Str := none
  ip_address : Option Str := none
  url_path : Option Str := none
  status_code : Option Nat := none
deriving DecidableEq, Repr

/-- `LogEntry.__post_init__` / `_extract_metadata`: the derived metadata is
computed once, from the *initial* message; later message continuations do
not re-run the extraction. -/
def mkLogEntry (ts : Option DT) (lvl lg msg raw : Str) (ln : Nat) : LogEntry :=
  { timestamp := ts, level := lvl, logger := lg, message := msg,
    raw_line := raw, line_number := ln,
    ip_address := searchIp msg, url_path := searchUrl msg,
    status_code := searchStatus msg, request_id := searchRid msg }

def LogEntry.is_error (e : LogEntry) : Bool :=
  upperS e.level = str "ERROR" || upperS e.level = str "CRITICAL" ||
  upperS e.level = str "FATAL"

def LogEntry.is_warning (e : LogEntry) : Bool :=
  upperS e.level = str "WARNING"

/-- The `(\w+Error|Exception):` fragment anchored at the current position:
alternative 1 (`\w+Error:`) tries word-prefix lengths greedily from the
longest down; alternative 2 is the bare literal `Exception:`. -/
def excA (l : Str) : Nat → Option Str
  | 0 => none
  | j + 1 =>
    if (str "Error:").isPrefixOf (l.drop (j + 1)) then
      some (l.take (j + 1) ++ str "Error")
    else excA l j

def excAt (l : Str) : Option Str :=
  match excA l (l.takeWhile isWordC).length with
  | some g => some g
  | none =>
    if (str "Exception:").isPrefixOf l then some (str "Exception") else none

/-- Leftmost match of `(\w+Error|Exception):` (`re.search`), group 1. -/
def excFirst : Str → Option Str
  | [] => none
  | c :: rest =>
    match excAt (c :: rest) with
    | some g => some g
    | none => excFirst rest

/-- The loop over the traceback: first line that does not contain
`/site-packages/` and does contain `File "/`, stripped. -/
def firstAppFrame : List Str → Option Str
  | [] => none
  | l :: rest =>
    if !containsSub l (str "/site-packages/") && containsSub l (str "File \"/") then
      some (strip l)
    else firstAppFrame rest

/-- The pipe-joined parts of `LogEntry.error_signature`, before hashing. -/
def LogEntry.sigParts (e : LogEntry) : List Str :=
  [e.level, e.logger] ++ (excFirst e.message).toList ++
    (if e.traceback.isEmpty then [] else (firstAppFrame e.traceback).toList)

/-- `LogEntry.error_signature`: first 8 hex characters of the MD5 of the
pipe-joined signature parts. -/
def LogEntry.error_signature (e : LogEntry) : Str :=
  (md5Hex (utf8Bytes (List.intercalate (str "|") e.sigParts))).take 8

structure ErrorGroup where
  signature : Str
  count : Nat := 0
  first_seen : Option DT := none
  last_seen : Option DT := none
  example_entry : Option LogEntry := none
  entries : List LogEntry := []
deriving DecidableEq, Repr

def mkGroup (sig : Str) : ErrorGroup := { signature := sig }

/-- `if not self.first_seen or (entry.timestamp and entry.timestamp <
self.first_seen)` with Python's short-circuit evaluation: the comparison
(which can raise `TypeError` on a naive/aware mix) is only reached when the
earlier truthiness tests pass. -/
def updFirst (g : ErrorGroup) (e : LogEntry) : Except Unit ErrorGroup :=
  match g.first_seen with
  | none => pure { g with first_seen := e.timestamp }
  | some fs =>
    match e.timestamp with
    | none => pure g
    | some t => do
      let b ← dtLt t fs
      pure (if b then { g with first_seen := e.timestamp } else g)

/-- `if not self.last_seen or (entry.timestamp and entry.timestamp >
self.last_seen)`. -/
def updLast (g : ErrorGroup) (e : LogEntry) : Except Unit ErrorGroup :=
  match g.last_seen with
  | none => pure { g with last_seen := e.timestamp }
  | some ls =>
    match e.timestamp with
    | none => pure g
    | some t => do
      let b ← dtGt t ls
      pure (if b then { g with last_seen := e.timestamp } else g)

/-- `if not self.example_entry or (entry.timestamp and (not
self.example_entry.timestamp or entry.timestamp >
self.example_entry.timestamp))`. -/
def updExample (g : ErrorGroup) (e : LogEntry) : Except Unit ErrorGroup :=
  match g.example_entry with
  | none => pure { g with example_entry := some e }
  | some ex =>
    match e.timestamp with
    | none => pure g
    | some t =>
      match ex.timestamp with
      | none => pure { g with example_entry := some e }
      | some xt => do
        let b ← dtGt t xt
        pure (if b then { g with example_entry := some e } else g)

/-- `ErrorGroup.add_entry`. -/
def addEntry (g : ErrorGroup) (e : LogEntry) : Except Unit ErrorGroup := do
  let g1 := { g with entries := g.entries ++ [e], count := g.count + 1 }
  let g2 ← updFirst g1 e
  let g3 ← updLast g2 e
  updExample g3 e

/-! ## The streaming pass (`LogParser.parse_logs`) -/

def tracebackIndicators : List Str :=
  [str "Traceback (most recent call last):",
   str "  File \"",
   str "    ",
   str "During handling of the above exception",
   str "The above exception was the direct cause"]

/-- `LogParser._is_traceback_line`. -/
def isTracebackLine (l : Str) : Bool :=
  tracebackIndicators.any (fun ind => containsSub l ind)

/-- The mutable loop state of `parse_logs`: finalized entries, the open
entry, and the `in_traceback` flag. -/
structure PState where
  entries : List LogEntry := []
  current : Option LogEntry := none
  inTb : Bool := false
deriving DecidableEq, Repr

/-- One iteration of the `parse_logs` loop on a raw line (with its
1-based line number). -/
def stepLine (st : PState) (ln : Nat) (rawLine : Str) : PState :=
  let line := rstrip rawLine
  if line.isEmpty then st
  else
    match parseLogLine line with
    | some (ts, lvl, lg, msg) =>
      { entries := (match st.current with
          | some e => st.entries ++ [e]
          | none => st.entries),
        current := some (mkLogEntry ts lvl lg msg line ln),
        inTb := false }
    | none =>
      match st.current with
      | some e =>
        if st.inTb || isTracebackLine line then
          { st with current := some { e with traceback := e.traceback ++ [line] },
                    inTb := true }
        else
          { st with current := some { e with message := e.message ++ ' ' :: strip line } }
      | none => st

def stepAll : PState → Nat → List Str → PState
  | st, _, [] => st
  | st, n, l :: ls => stepAll (stepLine st n l) (n + 1) ls

/-- The finalized entry list produced by the loop of `parse_logs`
(including the trailing `_finalize_entry` of a still-open entry). -/
def parseEntries (lines : List Str) : List LogEntry :=
  let st := stepAll {} 1 lines
  match st.current with
  | some e => st.entries ++ [e]
  | none => st.entries

/-! ## Grouping (`LogParser._group_errors`) -/

/-- The `error_groups` dict: an insertion-ordered association list. -/
def updateGroups : List (Str × ErrorGroup) → Str → LogEntry →
    Except Unit (List (Str × ErrorGroup))
  | [], sig, e => do
    let g ← addEntry (mkGroup sig) e
    pure [(sig, g)]
  | (s, g) :: rest, sig, e =>
    if s = sig then do
      let g2 ← addEntry g e
      pure ((s, g2) :: rest)
    else do
      let rest2 ← updateGroups rest sig e
      pure ((s, g) :: rest2)

def groupStep (gs : List (Str × ErrorGroup)) (e : LogEntry) :
    Except Unit (List (Str × ErrorGroup)) :=
  if e.is_error then updateGroups gs e.error_signature e else pure gs

def groupErrors (entries : List LogEntry) : Except Unit (List (Str × ErrorGroup)) :=
  entries.foldlM groupStep []

/-! ## Summary (`LogParser._generate_summary`) -/

/-- Stable insertion into a count-descending list (`sorted` in Python is
stable; with `reverse=True` equal elements keep their original order, which
is what placing the incoming earlier element before every element of equal
count reproduces). -/
def insDesc (x : ErrorGroup) : List ErrorGroup → List ErrorGroup
  | [] => [x]
  | y :: ys => if y.count ≤ x.count then x :: y :: ys else y :: insDesc x ys

def sortDesc (l : List ErrorGroup) : List ErrorGroup :=
  l.foldr insDesc []

def bumpCount : List (Str × Nat) → Str → List (Str × Nat)
  | [], lvl => [(lvl, 1)]
  | (s, n) :: rest, lvl =>
    if s = lvl then (s, n + 1) :: rest else (s, n) :: bumpCount rest lvl

/-- One iteration of the level-count / recency loop. -/
def recStep (cutoff : DT) (acc : List (Str × Nat) × List LogEntry × List LogEntry)
    (e : LogEntry) :
    Except Unit (List (Str × Nat) × List LogEntry × List LogEntry) := do
  let counts := bumpCount acc.1 e.level
  match e.timestamp with
  | none => pure (counts, acc.2)
  | some t => do
    let b ← dtGt t cutoff
    if b then
      if e.is_error then pure (counts, acc.2.1 ++ [e], acc.2.2)
      else if e.is_warning then pure (counts, acc.2.1, acc.2.2 ++ [e])
      else pure (counts, acc.2)
    else pure (counts, acc.2)

/-- Python `xs[-10:]`. -/
def lastTen (l : List LogEntry) : List LogEntry := l.drop (l.length - 10)

structure ParseSummary where
  total_entries : Nat
  level_counts : List (Str × Nat)
  error_groups : List ErrorGroup
  recent_errors : List LogEntry
  recent_warnings : List LogEntry
  entries : List LogEntry
  parsing_timestamp : Int
deriving DecidableEq, Repr

/-- `LogParser._generate_summary`, with the wall clock passed explicitly:
`now` is the naive epoch-microsecond value of `datetime.now()`. -/
def generateSummary (entries : List LogEntry) (gs : List (Str × ErrorGroup))
    (now : Int) : Except Unit ParseSummary := do
  let oneHourAgo : DT := ⟨now - 3600 * 1000000, none⟩
  let acc ← entries.foldlM (recStep oneHourAgo) ([], [], [])
  pure { total_entries := entries.length,
         level_counts := acc.1,
         error_groups := sortDesc (gs.map Prod.snd),
         recent_errors := lastTen acc.2.1,
         recent_warnings := lastTen acc.2.2,
         entries := entries,
         parsing_timestamp := now }

/-- `LogParser.parse_logs`. -/
def parseLogs (lines : List Str) (now : Int) : Except Unit ParseSummary := do
  let es := parseEntries lines
  let gs ← groupErrors es
  generateSummary es gs now

/-! ## Inputs of the concrete scenarios -/

def c1lines : List Str :=
  [str "[2024-06-30 16:20:01,123] ERROR django.request: Internal Server Error: /api/payments/",
   str "Traceback (most recent call last):",
   str "  File \"/app/payments/views.py\", line 45, in process_payment",
   str "ConnectionError: Could not connect to Stripe API",
   str "",
   str "[2024-06-30 16:24:01,555] ERROR django.request: Internal Server Error: /api/payments/",
   str "ConnectionError: Could not connect to Stripe API"]

/-! ## Specification-side definitions used to state the claims -/

/-- The naive-epoch value of an entry's timestamp, when present. -/
def tsUs (e : LogEntry) : Option Int := e.timestamp.map DT.us

/-- Whether an entry's timestamp (if any) is offset-naive. -/
def naiveE (e : LogEntry) : Bool :=
  match e.timestamp with
  | some t => t.tz.isNone
  | none => true

/-- Maximum timestamp value occurring in a list of entries. -/
def maxUs : List LogEntry → Option Int
  | [] => none
  | e :: es =>
    match tsUs e, maxUs es with
    | none, m => m
    | some t, none => some t
    | some t, some m => some (max t m)

/-- The representative member required by the (amended) example contract:
if some member has a timestamp, the *first* member attaining the maximum
timestamp; otherwise the first member. -/
def exampleSpec (es : List LogEntry) : Option LogEntry :=
  match maxUs es with
  | none => es.head?
  | some m => es.find? (fun e => tsUs e == some m)

/-- A sequence of `add_entry` calls on a fresh group. -/
def addAll (g : ErrorGroup) (es : List LogEntry) : Except Unit ErrorGroup :=
  es.foldlM addEntry g

/-- First-encounter deduplication (insertion order of a Python dict's keys). -/
def dedupGo (acc : List Str) : List Str → List Str
  | [] => acc
  | s :: ss => dedupGo (if s ∈ acc then acc else acc ++ [s]) ss

def dedupKF (l : List Str) : List Str := dedupGo [] l

/-- Modelled from the claim's words (C3): the first substring of the
message matching `<WordChars>Error` or `<WordChars>Exception`, with no
requirement on the following character. -/
def claimExcA (l pat : Str) : Nat → Option Str
  | 0 => none
  | j + 1 =>
    if pat.isPrefixOf (l.drop (j + 1)) then some (l.take (j + 1) ++ pat)
    else claimExcA l pat j

def claimExcAt (l : Str) : Option Str :=
  match claimExcA l (str "Error") (l.takeWhile isWordC).length with
  | some g => some g
  | none => claimExcA l (str "Exception") (l.takeWhile isWordC).length

def claimExcFirst : Str → Option Str
  | [] => none
  | c :: rest =>
    match claimExcAt (c :: rest) with
    | some g => some g
    | none => claimExcFirst rest

/-- Identity of an open entry for the purpose of "no new entry is started":
its provenance fields, which every continuation step leaves untouched. -/
def entryId (e : LogEntry) : Str × Nat := (e.raw_line, e.line_number)

/-- Small concrete entries used by witnesses and counterexamples. -/
def entA : LogEntry :=
  { timestamp := some ⟨100, none⟩, level := str "ERROR", message := str "a" }

def entB : LogEntry :=
  { timestamp := some ⟨100, none⟩, level := str "ERROR", message := str "b" }

/-! ## Claims -/

set_option maxRecDepth 100000

/-- C1 (counterexample): parsing the seven-line scenario batch yields *two*
error groups, not the single group of count 2 that the claim asserts
(see `c1_amended_scenario` for what actually happens). -/
theorem c1_two_groups :
    (parseLogs c1lines 0).map (fun sm => sm.error_groups.length) = .ok 2 := by
  decide

/-- C1 (amended): the batch yields exactly 2 finalized entries, both
`is_error`; but the fourth line is swallowed as a *traceback* line of the
first entry while the seventh becomes a *message continuation* of the
second, so the first signature hashes `ERROR|django.request|File
"/app/payments/views.py", line 45, in process_payment` while the second
hashes `ERROR|django.request|ConnectionError`; the signatures differ and
grouping produces two ErrorGroups, each with count 1. -/
theorem c1_amended_scenario :
    (parseEntries c1lines).length = 2 ∧
    (parseEntries c1lines).all LogEntry.is_error = true ∧
    ((parseEntries c1lines).map LogEntry.error_signature).Nodup ∧
    (parseLogs c1lines 0).map
      (fun sm => sm.error_groups.map (fun g => (g.signature, g.count))) =
      .ok [(str "b96e2062", 1), (str "3de9abd2", 1)] := by
  refine ⟨by decide, by decide, by decide, by decide⟩

/-- C2 (code bug): on a line of recognizer shape 2
(`timestamp - source - LEVEL - message`), the classifier returns the
uppercased *source* field as the severity and the *LEVEL* field as the
source — the tuple unpacking in `_parse_log_line` contradicts the format
documented in the `DJANGO_LOG_PATTERNS` comment. -/
theorem c2_swapped_fields :
    (parseLogLine (str "2024-01-01 12:00:00,123 - myapp - ERROR - boom")).map
      (fun r => (r.2.1, r.2.2.1, r.2.2.2)) =
      some (str "MYAPP", str "ERROR", str "boom") := by
  decide

def c3entry : LogEntry :=
  mkLogEntry none (str "ERROR") (str "app")
    (str "caught a FooError in handler") (str "caught a FooError in handler") 1

/-- C3 (counterexample): this error entry's message contains the substring
`FooError` (matching `<WordChars>Error`), yet the signature parts omit the
exception-type component, because the source regex
`(\w+Error|Exception):` also requires an immediately following colon. -/
theorem c3_colon_required :
    claimExcFirst c3entry.message = some (str "FooError") ∧
    c3entry.sigParts = [str "ERROR", str "app"] := by
  refine ⟨by decide, by decide⟩

def c4lines : List Str :=
  [str "[2024-06-30 16:21:20,789] INFO django.request: GET /health/ 200"]

/-- C4 (counterexample): the single INFO line parses, but its extracted
`url_path` is absent, not `"/health/"` as the claim asserts (the URL
pattern `"[A-Z]+ ([^"]+) HTTP` requires a quoted access-log form). -/
theorem c4_no_url :
    (parseEntries c4lines).map (fun e => e.url_path) = [none] := by
  decide

/-- C4 (amended): the line parses into one entry with severity `INFO`, but
both `status_code` and `url_path` are absent, since the metadata patterns
(`" (\d{3}) ` and `"[A-Z]+ ([^"]+) HTTP`) expect the quoted access-log
message form, which `GET /health/ 200` is not. -/
theorem c4_info_no_metadata :
    (parseEntries c4lines).map (fun e => (e.level, e.status_code, e.url_path)) =
      [(str "INFO", none, none)] := by
  decide

/-- C5 (counterexample): two distinct entries with *equal* timestamps; after
adding both, the example is the **first** one encountered, not the last —
`add_entry` only replaces the example on a strictly greater timestamp. -/
theorem c5_tie_keeps_first :
    (addAll (mkGroup (str "sig")) [entA, entB]).map (fun g => g.example_entry) =
      .ok (some entA) ∧ entA ≠ entB := by
  refine ⟨by decide, by decide⟩

def c7lines : List Str :=
  [str "[2024-06-30 16:20:01,123] ERROR django.request: boom"]

/-- C7 (counterexample): with the summary built at `now = 0` (epoch), the
2024-dated error entry lands in `recent_errors` although its timestamp lies
far in the future of `now` — the recency test only checks the lower bound
`now - 1h`, so an element's timestamp need not lie within the last hour. -/
theorem c7_future_in_recent :
    (parseLogs c7lines 0).map
      (fun sm => (sm.recent_errors.map tsUs, sm.parsing_timestamp)) =
      .ok ([some 1719764401123000], 0) ∧
    ((0 : Int) < 1719764401123000) := by
  refine ⟨by decide, by decide⟩

/-- C9 (code bug): a batch with a recognized `%d/%b/%Y:%H:%M:%S %z` header
produces a timezone-aware timestamp, and `_generate_summary` then compares
it with the naive `one_hour_ago`, which raises `TypeError` — `parse_logs`
does not return a summary.  The second conjunct is the claim's true part: a
batch whose only line is unrecognizable garbage yields zero entries and no
error. -/
theorem c9_aware_raises :
    parseLogs [str "[01/Jan/2024:12:00:00 +0000] ERROR app: boom"] 0 = .error () ∧
    (parseLogs [str "@@@ total garbage @@@"] 0).map (fun sm => sm.total_entries) =
      .ok 0 := by
  refine ⟨by decide, by decide⟩

/-! ## Helper lemmas on the `Except` pipeline -/

theorem exbind_ok {α β : Type} {x : Except Unit α} {f : α → Except Unit β} {b : β} :
    (x >>= f) = .ok b ↔ ∃ a, x = .ok a ∧ f a = .ok b := by
  cases x <;> simp [Bind.bind, Except.bind]

theorem updFirst_skel {g : ErrorGroup} {e : LogEntry} {g2 : ErrorGroup}
    (h : updFirst g e = .ok g2) :
    g2.count = g.count ∧ g2.entries = g.entries ∧
    g2.example_entry = g.example_entry ∧ g2.signature = g.signature := by
  rcases hfs : g.first_seen with _ | fs
  · simp only [updFirst, hfs, pure, Except.pure, Except.ok.injEq] at h
    subst h; exact ⟨rfl, rfl, rfl, rfl⟩
  · rcases hts : e.timestamp with _ | t
    · simp only [updFirst, hfs, hts, pure, Except.pure, Except.ok.injEq] at h
      subst h; exact ⟨rfl, rfl, rfl, rfl⟩
    · rcases hd : dtLt t fs with u | b
      · simp [updFirst, hfs, hts, hd, Bind.bind, Except.bind] at h
      · simp only [updFirst, hfs, hts, hd, Bind.bind, Except.bind, pure,
          Except.pure, Except.ok.injEq] at h
        subst h
        split <;> exact ⟨rfl, rfl, rfl, rfl⟩

theorem updLast_skel {g : ErrorGroup} {e : LogEntry} {g2 : ErrorGroup}
    (h : updLast g e = .ok g2) :
    g2.count = g.count ∧ g2.entries = g.entries ∧
    g2.example_entry = g.example_entry ∧ g2.signature = g.signature ∧
    g2.first_seen = g.first_seen := by
  rcases hls : g.last_seen with _ | ls
  · simp only [updLast, hls, pure, Except.pure, Except.ok.injEq] at h
    subst h; exact ⟨rfl, rfl, rfl, rfl, rfl⟩
  · rcases hts : e.timestamp with _ | t
    · simp only [updLast, hls, hts, pure, Except.pure, Except.ok.injEq] at h
      subst h; exact ⟨rfl, rfl, rfl, rfl, rfl⟩
    · rcases hd : dtGt t ls with u | b
      · simp [updLast, hls, hts, hd, Bind.bind, Except.bind] at h
      · simp only [updLast, hls, hts, hd, Bind.bind, Except.bind, pure,
          Except.pure, Except.ok.injEq] at h
        subst h
        split <;> exact ⟨rfl, rfl, rfl, rfl, rfl⟩

theorem updExample_skel {g : ErrorGroup} {e : LogEntry} {g2 : ErrorGroup}
    (h : updExample g e = .ok g2) :
    g2.count = g.count ∧ g2.entries = g.entries ∧
    g2.signature = g.signature ∧
    (g2.example_entry = g.example_entry ∨ g2.example_entry = some e) := by
  rcases hex : g.example_entry with _ | ex
  · simp only [updExample, hex, pure, Except.pure, Except.ok.injEq] at h
    subst h; exact ⟨rfl, rfl, rfl, Or.inr rfl⟩
  · rcases hts : e.timestamp with _ | t
    · simp only [updExample, hex, hts, pure, Except.pure, Except.ok.injEq] at h
      subst h; exact ⟨rfl, rfl, rfl, Or.inl hex⟩
    · rcases hxt : ex.timestamp with _ | xt
      · simp only [updExample, hex, hts, hxt, pure, Except.pure, Except.ok.injEq] at h
        subst h; exact ⟨rfl, rfl, rfl, Or.inr rfl⟩
      · rcases hd : dtGt t xt with u | b
        · simp [updExample, hex, hts, hxt, hd, Bind.bind, Except.bind] at h
        · simp only [updExample, hex, hts, hxt, hd, Bind.bind, Except.bind, pure,
            Except.pure, Except.ok.injEq] at h
          subst h
          split
          · exact ⟨rfl, rfl, rfl, Or.inr rfl⟩
          · exact ⟨rfl, rfl, rfl, Or.inl hex⟩

/-- Whatever the timestamp bookkeeping does, `add_entry` appends the entry
and increments the count in lockstep. -/
theorem addEntry_skel {g : ErrorGroup} {e : LogEntry} {g2 : ErrorGroup}
    (h : addEntry g e = .ok g2) :
    g2.count = g.count + 1 ∧ g2.entries = g.entries ++ [e] ∧
    g2.signature = g.signature := by
  simp only [addEntry] at h
  rw [exbind_ok] at h
  obtain ⟨ga, ha, h⟩ := h
  rw [exbind_ok] at h
  obtain ⟨gb, hb, h⟩ := h
  obtain ⟨ca, ea, _, sa⟩ := updFirst_skel ha
  obtain ⟨cb, eb, _, sb, _⟩ := updLast_skel hb
  obtain ⟨cc, ec, sc, _⟩ := updExample_skel h
  simp_all

def groupsOK (gs : List (Str × ErrorGroup)) : Prop :=
  ∀ p ∈ gs, p.2.count = p.2.entries.length ∧ ∀ x ∈ p.2.entries, x.is_error = true

def sumCounts (gs : List (Str × ErrorGroup)) : Nat :=
  (gs.map (fun p => p.2.count)).sum

theorem updateGroups_inv {gs : List (Str × ErrorGroup)} {sig : Str} {e : LogEntry}
    {out : List (Str × ErrorGroup)}
    (h : updateGroups gs sig e = .ok out) (hok : groupsOK gs)
    (he : e.is_error = true) :
    groupsOK out ∧ sumCounts out = sumCounts gs + 1 := by
  induction gs generalizing out with
  | nil =>
    simp only [updateGroups] at h
    rw [exbind_ok] at h
    obtain ⟨gg, hg, h2⟩ := h
    simp only [pure, Except.pure, Except.ok.injEq] at h2
    subst h2
    obtain ⟨hc, hen, _⟩ := addEntry_skel hg
    refine ⟨?_, ?_⟩
    · intro p hp
      simp only [List.mem_singleton] at hp
      subst hp
      refine ⟨?_, ?_⟩
      · simp [hc, hen, mkGroup]
      · intro x hx
        simp only [hen, mkGroup] at hx
        simp only [List.nil_append, List.mem_singleton] at hx
        subst hx; exact he
    · simp [sumCounts, hc, mkGroup]
  | cons p rest ih =>
    obtain ⟨s, g⟩ := p
    simp only [updateGroups] at h
    by_cases hs : s = sig
    · rw [if_pos hs] at h
      rw [exbind_ok] at h
      obtain ⟨g2, hg, h2⟩ := h
      simp only [pure, Except.pure, Except.ok.injEq] at h2
      subst h2
      obtain ⟨hc, hen, _⟩ := addEntry_skel hg
      obtain ⟨hlen, hmem⟩ := hok (s, g) (by simp)
      refine ⟨?_, ?_⟩
      · intro q hq
        rcases List.mem_cons.mp hq with hq | hq
        · subst hq
          refine ⟨?_, ?_⟩
          · simp only [hc, hen, List.length_append, List.length_singleton]
            simpa using hlen
          · intro x hx
            simp only [hen, List.mem_append, List.mem_singleton] at hx
            rcases hx with hx | hx
            · exact hmem x hx
            · subst hx; exact he
        · exact hok q (List.mem_cons_of_mem _ hq)
      · simp [sumCounts, hc]
        omega
    · simp only [if_neg hs] at h
      rw [exbind_ok] at h
      obtain ⟨rest2, hr, h2⟩ := h
      simp only [pure, Except.pure, Except.ok.injEq] at h2
      subst h2
      have hoktail : groupsOK rest := fun q hq => hok q (List.mem_cons_of_mem _ hq)
      obtain ⟨hinv, hsum⟩ := ih hr hoktail
      refine ⟨?_, ?_⟩
      · intro q hq
        rcases List.mem_cons.mp hq with hq | hq
        · subst hq; exact hok (s, g) (by simp)
        · exact hinv q hq
      · simp only [sumCounts, List.map_cons, List.sum_cons] at *
        omega

theorem groupFold_inv {es : List LogEntry} {gs out : List (Str × ErrorGroup)}
    (h : es.foldlM groupStep gs = .ok out) (hok : groupsOK gs) :
    groupsOK out ∧
    sumCounts out = sumCounts gs + (es.filter (fun x => x.is_error)).length := by
  induction es generalizing gs with
  | nil =>
    simp only [List.foldlM_nil, pure, Except.pure, Except.ok.injEq] at h
    subst h
    simp [hok]
  | cons e rest ih =>
    rw [List.foldlM_cons, exbind_ok] at h
    obtain ⟨gs1, h1, h2⟩ := h
    by_cases he : e.is_error = true
    · simp only [groupStep, he, if_pos] at h1
      obtain ⟨hinv1, hsum1⟩ := updateGroups_inv h1 hok he
      obtain ⟨hinv2, hsum2⟩ := ih h2 hinv1
      refine ⟨hinv2, ?_⟩
      rw [hsum2, hsum1, List.filter_cons]
      simp only [he, if_pos, List.length_cons]
      omega
    · simp only [groupStep, he, if_neg, Bool.false_eq_true, if_false, pure,
        Except.pure, Except.ok.injEq] at h1
      subst h1
      obtain ⟨hinv2, hsum2⟩ := ih h2 hok
      refine ⟨hinv2, ?_⟩
      rw [hsum2, List.filter_cons]
      simp [he]

/-- C10: after grouping, every ErrorGroup's count equals the length of its
member list, every member is an error-level entry, and the counts sum to
the number of error-level entries among the grouped entries. -/
theorem c10_group_counts (es : List LogEntry) (gs : List (Str × ErrorGroup))
    (h : groupErrors es = .ok gs) :
    (∀ p ∈ gs, p.2.count = p.2.entries.length ∧
      ∀ x ∈ p.2.entries, x.is_error = true) ∧
    (gs.map (fun p => p.2.count)).sum = (es.filter (fun x => x.is_error)).length := by
  have hf : es.foldlM groupStep [] = .ok gs := h
  have hempty : groupsOK [] := by intro p hp; simp at hp
  have hmain := groupFold_inv hf hempty
  refine ⟨hmain.1, ?_⟩
  have h2 := hmain.2
  simp only [sumCounts, List.map_nil, List.sum_nil, Nat.zero_add] at h2
  exact h2

def gsOne : List (Str × ErrorGroup) :=
  [(str "3d1d057b",
    { signature := str "3d1d057b", count := 1,
      first_seen := some ⟨100, none⟩, last_seen := some ⟨100, none⟩,
      example_entry := some entA, entries := [entA] })]

/-- C10 (witness): the grouping of a concrete one-entry batch. -/
theorem c10_witness :
    ((gsOne.map (fun p => p.2.count)).sum =
      (([entA]).filter (fun x => x.is_error)).length) :=
  (c10_group_counts [entA] gsOne (by decide)).2

def recQ (cutoff : DT) (e : LogEntry) : Prop :=
  ∃ t, e.timestamp = some t ∧ t.tz = none ∧ cutoff.us < t.us

theorem recStep_inv {cutoff : DT} (hcut : cutoff.tz = none)
    {acc out : List (Str × Nat) × List LogEntry × List LogEntry} {e : LogEntry}
    (h : recStep cutoff acc e = .ok out)
    (h1 : ∀ x ∈ acc.2.1, recQ cutoff x) (h2 : ∀ x ∈ acc.2.2, recQ cutoff x) :
    (∀ x ∈ out.2.1, recQ cutoff x) ∧ (∀ x ∈ out.2.2, recQ cutoff x) := by
  unfold recStep at h
  rcases hts : e.timestamp with _ | t
  · simp only [hts, pure, Except.pure, Except.ok.injEq] at h
    subst h
    exact ⟨h1, h2⟩
  · rcases htz : t.tz with _ | off
    · have hd : dtGt t cutoff = .ok (decide (cutoff.us < t.us)) := by
        simp [dtGt, dtLt, hcut, htz]
      simp only [hts, hd, Bind.bind, Except.bind] at h
      by_cases hb : cutoff.us < t.us
      · rw [if_pos (by simp [hb])] at h
        split at h <;>
          [skip; split at h] <;>
          simp only [pure, Except.pure, Except.ok.injEq] at h <;> subst h
        · refine ⟨?_, h2⟩
          intro x hx
          rcases List.mem_append.mp hx with hx | hx
          · exact h1 x hx
          · rcases List.mem_singleton.mp hx with rfl
            exact ⟨t, hts, htz, hb⟩
        · refine ⟨h1, ?_⟩
          intro x hx
          rcases List.mem_append.mp hx with hx | hx
          · exact h2 x hx
          · rcases List.mem_singleton.mp hx with rfl
            exact ⟨t, hts, htz, hb⟩
        · exact ⟨h1, h2⟩
      · rw [if_neg (by simp [hb])] at h
        simp only [pure, Except.pure, Except.ok.injEq] at h
        subst h
        exact ⟨h1, h2⟩
    · have hd : dtGt t cutoff = .error () := by
        simp [dtGt, dtLt, hcut, htz]
      simp [hts, hd, Bind.bind, Except.bind] at h

theorem recFold_inv {cutoff : DT} (hcut : cutoff.tz = none)
    {es : List LogEntry}
    {acc out : List (Str × Nat) × List LogEntry × List LogEntry}
    (h : es.foldlM (recStep cutoff) acc = .ok out)
    (h1 : ∀ x ∈ acc.2.1, recQ cutoff x) (h2 : ∀ x ∈ acc.2.2, recQ cutoff x) :
    (∀ x ∈ out.2.1, recQ cutoff x) ∧ (∀ x ∈ out.2.2, recQ cutoff x) := by
  induction es generalizing acc with
  | nil =>
    simp only [List.foldlM_nil, pure, Except.pure, Except.ok.injEq] at h
    subst h
    exact ⟨h1, h2⟩
  | cons e rest ih =>
    rw [List.foldlM_cons, exbind_ok] at h
    obtain ⟨acc1, hstep, hrest⟩ := h
    obtain ⟨g1, g2⟩ := recStep_inv hcut hstep h1 h2
    exact ih hrest g1 g2

theorem lastTen_length (l : List LogEntry) : (lastTen l).length ≤ 10 := by
  simp only [lastTen, List.length_drop]
  omega

theorem lastTen_subset (l : List LogEntry) : lastTen l ⊆ l :=
  List.drop_subset _ _

/-- C7 (amended): `recent_errors` and `recent_warnings` each hold at most
10 entries, and every element has a present, offset-naive timestamp that is
*more recent than one hour before* summary-build time (the code checks only
this lower bound, so nothing prevents timestamps later than `now` itself —
see `c7_future_in_recent`). -/
theorem c7_bounded_recency (es : List LogEntry) (gs : List (Str × ErrorGroup))
    (now : Int) (sm : ParseSummary)
    (hs : generateSummary es gs now = .ok sm) :
    sm.recent_errors.length ≤ 10 ∧ sm.recent_warnings.length ≤ 10 ∧
    (∀ e ∈ sm.recent_errors, ∃ t, e.timestamp = some t ∧ t.tz = none ∧
      now - 3600 * 1000000 < t.us) ∧
    (∀ e ∈ sm.recent_warnings, ∃ t, e.timestamp = some t ∧ t.tz = none ∧
      now - 3600 * 1000000 < t.us) := by
  unfold generateSummary at hs
  rw [exbind_ok] at hs
  obtain ⟨acc, hf, hp⟩ := hs
  simp only [pure, Except.pure, Except.ok.injEq] at hp
  subst hp
  have hinv := recFold_inv rfl hf
    (by intro x hx; simp at hx) (by intro x hx; simp at hx)
  refine ⟨lastTen_length _, lastTen_length _, ?_, ?_⟩
  · intro e he
    exact hinv.1 e (lastTen_subset _ he)
  · intro e he
    exact hinv.2 e (lastTen_subset _ he)

def smOne : ParseSummary :=
  { total_entries := 1, level_counts := [(str "ERROR", 1)], error_groups := [],
    recent_errors := [entA], recent_warnings := [], entries := [entA],
    parsing_timestamp := 0 }

/-- C7 (witness): the bound applied to a concrete one-entry summary. -/
theorem c7_witness :
    smOne.recent_errors.length ≤ 10 ∧ smOne.recent_warnings.length ≤ 10 := by
  have h := c7_bounded_recency [entA] [] 0 smOne (by decide)
  exact ⟨h.1, h.2.1⟩

theorem mem_insDesc {x b : ErrorGroup} {l : List ErrorGroup} :
    b ∈ insDesc x l ↔ b = x ∨ b ∈ l := by
  induction l with
  | nil => simp [insDesc]
  | cons y ys ih =>
    by_cases hc : y.count ≤ x.count
    · rw [insDesc, if_pos hc]
      simp [List.mem_cons]
    · rw [insDesc, if_neg hc]
      simp only [List.mem_cons, ih]
      tauto

theorem pairwise_insDesc {x : ErrorGroup} {l : List ErrorGroup}
    (h : l.Pairwise (fun a b => b.count ≤ a.count)) :
    (insDesc x l).Pairwise (fun a b => b.count ≤ a.count) := by
  induction l with
  | nil => simp [insDesc]
  | cons y ys ih =>
    rw [List.pairwise_cons] at h
    obtain ⟨hy, hys⟩ := h
    by_cases hc : y.count ≤ x.count
    · rw [insDesc, if_pos hc, List.pairwise_cons]
      refine ⟨?_, List.Pairwise.cons hy hys⟩
      intro b hb
      rcases List.mem_cons.mp hb with rfl | hb
      · exact hc
      · exact le_trans (hy b hb) hc
    · rw [insDesc, if_neg hc, List.pairwise_cons]
      refine ⟨?_, ih hys⟩
      intro b hb
      rcases mem_insDesc.mp hb with rfl | hb
      · omega
      · exact hy b hb

theorem sortDesc_sorted (l : List ErrorGroup) :
    (sortDesc l).Pairwise (fun a b => b.count ≤ a.count) := by
  induction l with
  | nil => simp [sortDesc]
  | cons x xs ih => exact pairwise_insDesc ih

theorem filter_insDesc (c : Nat) (x : ErrorGroup) (l : List ErrorGroup) :
    (insDesc x l).filter (fun g => g.count == c) =
      if x.count = c then x :: l.filter (fun g => g.count == c)
      else l.filter (fun g => g.count == c) := by
  induction l with
  | nil =>
    by_cases hxc : x.count = c
    · rw [if_pos hxc]
      simp [insDesc, List.filter_cons, hxc]
    · rw [if_neg hxc]
      simp [insDesc, List.filter_cons, hxc]
  | cons y ys ih =>
    by_cases hc : y.count ≤ x.count
    · rw [insDesc, if_pos hc]
      by_cases hxc : x.count = c
      · rw [if_pos hxc]
        simp [List.filter_cons, hxc]
      · rw [if_neg hxc]
        simp [List.filter_cons, hxc]
    · rw [insDesc, if_neg hc, List.filter_cons, ih]
      by_cases hxc : x.count = c
      · have hyc : ¬ y.count = c := by omega
        simp [List.filter_cons, hxc, hyc]
      · simp [List.filter_cons, hxc]

theorem filter_sortDesc (c : Nat) (l : List ErrorGroup) :
    (sortDesc l).filter (fun g => g.count == c) =
      l.filter (fun g => g.count == c) := by
  induction l with
  | nil => rfl
  | cons x xs ih =>
    show (insDesc x (sortDesc xs)).filter _ = _
    rw [filter_insDesc, List.filter_cons]
    by_cases hxc : x.count = c
    · rw [if_pos hxc, ih]
      simp [hxc]
    · rw [if_neg hxc, ih]
      simp [hxc]

theorem updateGroups_keys {gs : List (Str × ErrorGroup)} {sig : Str}
    {e : LogEntry} {out : List (Str × ErrorGroup)}
    (h : updateGroups gs sig e = .ok out) :
    out.map Prod.fst =
      if sig ∈ gs.map Prod.fst then gs.map Prod.fst
      else gs.map Prod.fst ++ [sig] := by
  induction gs generalizing out with
  | nil =>
    simp only [updateGroups] at h
    rw [exbind_ok] at h
    obtain ⟨gg, _, h2⟩ := h
    simp only [pure, Except.pure, Except.ok.injEq] at h2
    subst h2
    simp
  | cons p rest ih =>
    obtain ⟨s, g⟩ := p
    simp only [updateGroups] at h
    by_cases hs : s = sig
    · rw [if_pos hs] at h
      rw [exbind_ok] at h
      obtain ⟨g2, _, h2⟩ := h
      simp only [pure, Except.pure, Except.ok.injEq] at h2
      subst h2
      subst hs
      rw [List.map_cons, List.map_cons, if_pos (List.mem_cons_self _ _)]
    · rw [if_neg hs] at h
      rw [exbind_ok] at h
      obtain ⟨rest2, hr, h2⟩ := h
      simp only [pure, Except.pure, Except.ok.injEq] at h2
      subst h2
      have hk := ih hr
      by_cases hmem : sig ∈ rest.map Prod.fst
      · rw [if_pos hmem] at hk
        simp only [List.map_cons, hk]
        rw [if_pos (by simp [List.mem_cons, hmem])]
      · rw [if_neg hmem] at hk
        simp only [List.map_cons, hk]
        rw [if_neg (by simp [List.mem_cons, hmem, Ne.symm hs])]
        simp

theorem groupFold_keys {es : List LogEntry} {gs out : List (Str × ErrorGroup)}
    (h : es.foldlM groupStep gs = .ok out) :
    out.map Prod.fst =
      dedupGo (gs.map Prod.fst)
        ((es.filter (fun x => x.is_error)).map (fun x => x.error_signature)) := by
  induction es generalizing gs with
  | nil =>
    simp only [List.foldlM_nil, pure, Except.pure, Except.ok.injEq] at h
    subst h
    rfl
  | cons e rest ih =>
    rw [List.foldlM_cons, exbind_ok] at h
    obtain ⟨gs1, h1, h2⟩ := h
    by_cases he : e.is_error = true
    · simp only [groupStep, if_pos he] at h1
      have hk := updateGroups_keys h1
      rw [List.filter_cons]
      simp only [he, if_pos]
      rw [List.map_cons]
      show _ = dedupGo _ (e.error_signature :: _)
      rw [ih h2, hk]
      rfl
    · simp only [groupStep, he, Bool.false_eq_true, if_false, pure, Except.pure,
        Except.ok.injEq] at h1
      subst h1
      rw [List.filter_cons]
      simp only [he, Bool.false_eq_true, if_false]
      exact ih h2

theorem genSummary_groups {es : List LogEntry} {gs : List (Str × ErrorGroup)}
    {now : Int} {sm : ParseSummary}
    (h : generateSummary es gs now = .ok sm) :
    sm.error_groups = sortDesc (gs.map Prod.snd) := by
  unfold generateSummary at h
  rw [exbind_ok] at h
  obtain ⟨acc, _, hp⟩ := h
  simp only [pure, Except.pure, Except.ok.injEq] at hp
  subst hp
  rfl

/-- C6: `error_groups` in a generated summary is sorted by count in
descending order; groups of equal count keep the grouping pass's insertion
order (Python's sort is stable); and the grouping pass's insertion order is
exactly the first-encounter order of the signatures of the error-level
entries. -/
theorem c6_sorted_stable (es : List LogEntry) (gs : List (Str × ErrorGroup))
    (now : Int) (sm : ParseSummary)
    (hg : groupErrors es = .ok gs)
    (hs : generateSummary es gs now = .ok sm) :
    sm.error_groups.Pairwise (fun a b => b.count ≤ a.count) ∧
    (∀ c, sm.error_groups.filter (fun g => g.count == c) =
      (gs.map Prod.snd).filter (fun g => g.count == c)) ∧
    gs.map Prod.fst =
      dedupKF ((es.filter (fun x => x.is_error)).map
        (fun x => x.error_signature)) := by
  have hgrp := genSummary_groups hs
  have hf : es.foldlM groupStep [] = .ok gs := hg
  refine ⟨?_, ?_, ?_⟩
  · rw [hgrp]; exact sortDesc_sorted _
  · intro c; rw [hgrp]; exact filter_sortDesc c _
  · exact groupFold_keys hf

def smTwo : ParseSummary :=
  { total_entries := 1, level_counts := [(str "ERROR", 1)],
    error_groups := gsOne.map Prod.snd, recent_errors := [entA],
    recent_warnings := [], entries := [entA], parsing_timestamp := 0 }

/-- C6 (witness): order invariant on a concrete one-group summary. -/
theorem c6_witness :
    smTwo.error_groups.Pairwise (fun a b => b.count ≤ a.count) ∧
    smTwo.error_groups.filter (fun g => g.count == 1) =
      (gsOne.map Prod.snd).filter (fun g => g.count == 1) ∧
    gsOne.map Prod.fst =
      dedupKF ((([entA]).filter (fun x => x.is_error)).map
        (fun x => x.error_signature)) := by
  have h := c6_sorted_stable [entA] gsOne 0 smTwo (by decide) (by decide)
  exact ⟨h.1, h.2.1 1, h.2.2⟩

def optNaive : Option DT → Prop
  | none => True
  | some t => t.tz = none

/-- The example-update recurrence performed by one `add_entry` call (under
defined comparisons). -/
def exStep (old : Option LogEntry) (e : LogEntry) : Option LogEntry :=
  match old with
  | none => some e
  | some ex =>
    match tsUs e with
    | none => some ex
    | some t =>
      match tsUs ex with
      | none => some e
      | some xt => if xt < t then some e else some ex

theorem findq_append {α : Type} {p : α → Bool} {l1 l2 : List α} :
    (l1 ++ l2).find? p =
      match l1.find? p with
      | some x => some x
      | none => l2.find? p := by
  induction l1 with
  | nil => simp
  | cons a as ih =>
    by_cases hp : p a
    · simp [List.find?_cons, hp]
    · simp [List.find?_cons, hp, ih]

theorem maxUs_append_none {es : List LogEntry} {e : LogEntry}
    (hte : tsUs e = none) : maxUs (es ++ [e]) = maxUs es := by
  induction es with
  | nil => simp [maxUs, hte]
  | cons a as ih => simp only [List.cons_append, maxUs, List.append_eq, ih]

theorem maxUs_append_some_none {es : List LogEntry} {e : LogEntry} {t : Int}
    (hte : tsUs e = some t) (hM : maxUs es = none) :
    maxUs (es ++ [e]) = some t := by
  induction es with
  | nil => simp [maxUs, hte]
  | cons a as ih =>
    rcases hta : tsUs a with _ | ta
    · simp only [maxUs, hta] at hM
      simp only [List.cons_append, maxUs, List.append_eq, hta, ih hM]
    · rcases hma : maxUs as with _ | ma
      · simp [maxUs, hta, hma] at hM
      · simp [maxUs, hta, hma] at hM

theorem maxUs_append_some_some {es : List LogEntry} {e : LogEntry} {t m : Int}
    (hte : tsUs e = some t) (hM : maxUs es = some m) :
    maxUs (es ++ [e]) = some (max t m) := by
  induction es generalizing m with
  | nil => simp [maxUs] at hM
  | cons a as ih =>
    rcases hta : tsUs a with _ | ta
    · simp only [maxUs, hta] at hM
      simp only [List.cons_append, maxUs, List.append_eq, hta, ih hM]
    · rcases hma : maxUs as with _ | ma
      · simp only [maxUs, hta, hma, Option.some.injEq] at hM
        subst hM
        rw [List.cons_append]
        have h2 := maxUs_append_some_none hte hma
        simp only [maxUs, hta, h2]
        rw [max_comm]
      · simp only [maxUs, hta, hma, Option.some.injEq] at hM
        subst hM
        rw [List.cons_append]
        have h2 := ih hma
        simp only [maxUs, List.append_eq, hta, h2]
        rw [max_left_comm]

theorem maxUs_none_all {es : List LogEntry} (h : maxUs es = none) :
    ∀ x ∈ es, tsUs x = none := by
  induction es with
  | nil => intro x hx; simp at hx
  | cons a as ih =>
    rcases hta : tsUs a with _ | ta
    · simp only [maxUs, hta] at h
      intro x hx
      rcases List.mem_cons.mp hx with rfl | hx
      · exact hta
      · exact ih h x hx
    · rcases hma : maxUs as with _ | ma <;> simp [maxUs, hta, hma] at h

theorem maxUs_le {es : List LogEntry} {m : Int} (h : maxUs es = some m) :
    ∀ x ∈ es, ∀ u, tsUs x = some u → u ≤ m := by
  induction es generalizing m with
  | nil => intro x hx; simp at hx
  | cons a as ih =>
    intro x hx u hu
    rcases hta : tsUs a with _ | ta
    · simp only [maxUs, hta] at h
      rcases List.mem_cons.mp hx with rfl | hx
      · rw [hta] at hu; cases hu
      · exact ih h x hx u hu
    · rcases hma : maxUs as with _ | ma
      · simp only [maxUs, hta, hma, Option.some.injEq] at h
        subst h
        rcases List.mem_cons.mp hx with rfl | hx
        · rw [hta] at hu
          cases hu
          rfl
        · rw [maxUs_none_all hma x hx] at hu; cases hu
      · simp only [maxUs, hta, hma, Option.some.injEq] at h
        subst h
        rcases List.mem_cons.mp hx with rfl | hx
        · rw [hta] at hu
          cases hu
          exact le_max_left _ _
        · exact le_trans (ih hma x hx u hu) (le_max_right _ _)

theorem maxUs_attained {es : List LogEntry} {m : Int} (h : maxUs es = some m) :
    ∃ x, es.find? (fun y => tsUs y == some m) = some x := by
  induction es generalizing m with
  | nil => simp [maxUs] at h
  | cons a as ih =>
    rcases hta : tsUs a with _ | ta
    · simp only [maxUs, hta] at h
      obtain ⟨x, hx⟩ := ih h
      refine ⟨x, ?_⟩
      rw [List.find?_cons_of_neg _ (by simp [hta]), hx]
    · rcases hma : maxUs as with _ | ma
      · simp only [maxUs, hta, hma, Option.some.injEq] at h
        subst h
        exact ⟨a, List.find?_cons_of_pos _ (by simp [hta])⟩
      · simp only [maxUs, hta, hma, Option.some.injEq] at h
        subst h
        by_cases hmax : ta = max ta ma
        · exact ⟨a, List.find?_cons_of_pos _ (by simp [hta, ← hmax])⟩
        · have hm2 : max ta ma = ma := by
            rcases max_choice ta ma with hc | hc
            · exact absurd hc.symm hmax
            · exact hc
          rw [hm2]
          obtain ⟨x, hx⟩ := ih hma
          refine ⟨x, ?_⟩
          rw [List.find?_cons_of_neg _ (by simp [hta]; omega), hx]

theorem exampleSpec_mem {es : List LogEntry} {ex : LogEntry}
    (h : exampleSpec es = some ex) : ex ∈ es := by
  rcases hM : maxUs es with _ | m
  · simp only [exampleSpec, hM] at h
    cases es with
    | nil => cases h
    | cons a as =>
      simp only [List.head?_cons, Option.some.injEq] at h
      subst h
      exact List.mem_cons_self _ _
  · simp only [exampleSpec, hM] at h
    exact List.mem_of_find?_eq_some h

theorem exampleSpec_eq_none {es : List LogEntry} (h : exampleSpec es = none) :
    es = [] := by
  rcases hM : maxUs es with _ | m
  · simp only [exampleSpec, hM] at h
    exact List.head?_eq_none_iff.mp h
  · simp only [exampleSpec, hM] at h
    obtain ⟨x, hx⟩ := maxUs_attained hM
    rw [hx] at h
    cases h

/-- The pure recurrence satisfied by the example specification. -/
theorem exampleSpec_append (es : List LogEntry) (e : LogEntry) :
    exampleSpec (es ++ [e]) = exStep (exampleSpec es) e := by
  rcases hS : exampleSpec es with _ | ex
  · have hnil := exampleSpec_eq_none hS
    subst hnil
    rcases hte : tsUs e with _ | t
    · simp [exampleSpec, maxUs, hte, exStep]
    · simp [exampleSpec, maxUs, hte, exStep, List.find?_cons_of_pos]
  · rcases hte : tsUs e with _ | t
    · -- e has no timestamp: nothing changes
      rcases hM : maxUs es with _ | m
      · have hM2 : maxUs (es ++ [e]) = none := by
          rw [maxUs_append_none hte, hM]
        simp only [exampleSpec, hM] at hS
        simp only [exStep, hte, exampleSpec, hM2]
        cases es with
        | nil => cases hS
        | cons a as => simpa using hS
      · have hM2 : maxUs (es ++ [e]) = some m := by
          rw [maxUs_append_none hte, hM]
        simp only [exampleSpec, hM] at hS
        simp only [exStep, hte, exampleSpec, hM2, findq_append, hS]
    · rcases hM : maxUs es with _ | m
      · -- no earlier member has a timestamp, so ex (the head) has none
        have hxn : tsUs ex = none :=
          maxUs_none_all hM ex (exampleSpec_mem hS)
        have hM2 : maxUs (es ++ [e]) = some t := maxUs_append_some_none hte hM
        simp only [exStep, hte, hxn, exampleSpec, hM2, findq_append]
        have hfn : es.find? (fun y => tsUs y == some t) = none := by
          rw [List.find?_eq_none]
          intro x hx
          simp [maxUs_none_all hM x hx]
        rw [hfn]
        simp [List.find?_cons_of_pos, hte]
      · simp only [exampleSpec, hM] at hS
        have hxm : tsUs ex = some m := by
          have := List.find?_some hS
          simpa using this
        have hM2 : maxUs (es ++ [e]) = some (max t m) :=
          maxUs_append_some_some hte hM
        simp only [exStep, hte, hxm]
        by_cases hlt : m < t
        · rw [if_pos hlt]
          have hmax : max t m = t := max_eq_left (le_of_lt hlt)
          simp only [exampleSpec, hM2, hmax, findq_append]
          have hfn : es.find? (fun y => tsUs y == some t) = none := by
            rw [List.find?_eq_none]
            intro x hx
            rcases hxu : tsUs x with _ | u
            · simp
            · have := maxUs_le hM x hx u hxu
              simp
              omega
          rw [hfn]
          simp [List.find?_cons_of_pos, hte]
        · rw [if_neg hlt]
          have hmax : max t m = m := max_eq_right (by omega)
          simp only [exampleSpec, hM2, hmax, findq_append, hS]

theorem naiveE_tz {e : LogEntry} {t : DT} (he : naiveE e = true)
    (ht : e.timestamp = some t) : t.tz = none := by
  simp only [naiveE, ht, Option.isNone_iff_eq_none] at he
  exact he

theorem updFirst_ok {g : ErrorGroup} {e : LogEntry}
    (hf : optNaive g.first_seen) (he : naiveE e = true) :
    ∃ fs2, updFirst g e = .ok { g with first_seen := fs2 } ∧ optNaive fs2 := by
  rcases hfs : g.first_seen with _ | fs
  · refine ⟨e.timestamp, ?_, ?_⟩
    · simp [updFirst, hfs, pure, Except.pure]
    · rcases hts : e.timestamp with _ | t
      · trivial
      · exact naiveE_tz he hts
  · rcases hts : e.timestamp with _ | t
    · refine ⟨g.first_seen, ?_, by rw [hfs]; rw [hfs] at hf; exact hf⟩
      simp only [updFirst, hfs, hts, pure, Except.pure]
      congr 1
      rw [← hfs]
    · have htz : t.tz = none := naiveE_tz he hts
      have hfz : fs.tz = none := by rw [hfs] at hf; exact hf
      have hd : dtLt t fs = .ok (decide (t.us < fs.us)) := by
        simp [dtLt, htz, hfz]
      by_cases hb : t.us < fs.us
      · refine ⟨e.timestamp, ?_, ?_⟩
        · simp [updFirst, hfs, hts, hd, hb, Bind.bind, Except.bind, pure, Except.pure]
        · rw [hts]; exact htz
      · refine ⟨g.first_seen, ?_, ?_⟩
        · simp only [updFirst, hfs, hts, hd, hb, decide_eq_true_eq, if_neg,
            Bind.bind, Except.bind, pure, Except.pure]
          simp only [if_false]
          congr 1
          rw [← hfs]
        · rw [hfs]; exact hfz

theorem updLast_ok {g : ErrorGroup} {e : LogEntry}
    (hl : optNaive g.last_seen) (he : naiveE e = true) :
    ∃ ls2, updLast g e = .ok { g with last_seen := ls2 } ∧ optNaive ls2 := by
  rcases hls : g.last_seen with _ | ls
  · refine ⟨e.timestamp, ?_, ?_⟩
    · simp [updLast, hls, pure, Except.pure]
    · rcases hts : e.timestamp with _ | t
      · trivial
      · exact naiveE_tz he hts
  · rcases hts : e.timestamp with _ | t
    · refine ⟨g.last_seen, ?_, by rw [hls]; rw [hls] at hl; exact hl⟩
      simp only [updLast, hls, hts, pure, Except.pure]
      congr 1
      rw [← hls]
    · have htz : t.tz = none := naiveE_tz he hts
      have hlz : ls.tz = none := by rw [hls] at hl; exact hl
      have hd : dtGt t ls = .ok (decide (ls.us < t.us)) := by
        simp [dtGt, dtLt, htz, hlz]
      by_cases hb : ls.us < t.us
      · refine ⟨e.timestamp, ?_, ?_⟩
        · simp [updLast, hls, hts, hd, hb, Bind.bind, Except.bind, pure, Except.pure]
        · rw [hts]; exact htz
      · refine ⟨g.last_seen, ?_, ?_⟩
        · simp only [updLast, hls, hts, hd, hb, decide_eq_true_eq, if_neg,
            Bind.bind, Except.bind, pure, Except.pure]
          simp only [if_false]
          congr 1
          rw [← hls]
        · rw [hls]; exact hlz

theorem updExample_ok {g : ErrorGroup} {e : LogEntry}
    (hexn : ∀ ex, g.example_entry = some ex → naiveE ex = true)
    (he : naiveE e = true) :
    updExample g e = .ok { g with example_entry := exStep g.example_entry e } := by
  rcases hexv : g.example_entry with _ | ex
  · simp [updExample, hexv, exStep, pure, Except.pure]
  · rcases hts : e.timestamp with _ | t
    · have hstep : exStep (some ex) e = some ex := by
        simp [exStep, tsUs, hts]
      simp only [updExample, hexv, hts, hstep, pure, Except.pure]
      rw [← hexv]
    · rcases hxt : ex.timestamp with _ | xt
      · have hstep : exStep (some ex) e = some e := by
          simp [exStep, tsUs, hts, hxt]
        simp only [updExample, hexv, hts, hxt, hstep, pure, Except.pure]
      · have htz : t.tz = none := naiveE_tz he hts
        have hxz : xt.tz = none := naiveE_tz (hexn ex hexv) hxt
        have hd : dtGt t xt = .ok (decide (xt.us < t.us)) := by
          simp [dtGt, dtLt, htz, hxz]
        have hstep : exStep (some ex) e =
            if xt.us < t.us then some e else some ex := by
          simp [exStep, tsUs, hts, hxt]
        simp only [updExample, hexv, hts, hxt, hd, hstep, Bind.bind, Except.bind,
          pure, Except.pure]
        by_cases hb : xt.us < t.us
        · rw [if_pos (by simp [hb]), if_pos hb]
        · rw [if_neg (by simp [hb]), if_neg hb]
          congr 1
          rw [← hexv]

theorem addEntry_ok {g : ErrorGroup} {e : LogEntry}
    (hf : optNaive g.first_seen) (hl : optNaive g.last_seen)
    (hexn : ∀ ex, g.example_entry = some ex → naiveE ex = true)
    (he : naiveE e = true) :
    ∃ fs2 ls2, addEntry g e = .ok
      { g with entries := g.entries ++ [e], count := g.count + 1,
               first_seen := fs2, last_seen := ls2,
               example_entry := exStep g.example_entry e } ∧
      optNaive fs2 ∧ optNaive ls2 := by
  obtain ⟨fs2, h1, hfn⟩ :=
    @updFirst_ok { g with entries := g.entries ++ [e], count := g.count + 1 } e hf he
  obtain ⟨ls2, h2, hln⟩ :=
    @updLast_ok { g with entries := g.entries ++ [e], count := g.count + 1, first_seen := fs2 } e hl he
  have h3 :=
    @updExample_ok { g with entries := g.entries ++ [e], count := g.count + 1, first_seen := fs2, last_seen := ls2 } e hexn he
  refine ⟨fs2, ls2, ?_, hfn, hln⟩
  simp only [addEntry, Bind.bind, Except.bind, h1, h2, h3]

theorem addAll_append (g : ErrorGroup) (es : List LogEntry) (e : LogEntry) :
    addAll g (es ++ [e]) = (addAll g es) >>= (fun g2 => addEntry g2 e) := by
  induction es generalizing g with
  | nil =>
    show List.foldlM addEntry g [e] = _
    simp only [addAll, List.foldlM_cons, List.foldlM_nil]
    cases hae : addEntry g e <;>
      simp [Bind.bind, Except.bind, pure, Except.pure, hae]
  | cons a as ih =>
    show List.foldlM addEntry g (a :: (as ++ [e])) = _
    rw [List.foldlM_cons]
    show addEntry g a >>= _ = (addEntry g a >>= _) >>= _
    cases ha : addEntry g a with
    | error u => simp [Bind.bind, Except.bind]
    | ok g1 =>
      simp only [Bind.bind, Except.bind]
      exact ih g1

theorem addAll_ok (sig : Str) (es : List LogEntry)
    (h : ∀ x ∈ es, naiveE x = true) :
    ∃ g, addAll (mkGroup sig) es = .ok g ∧
      g.example_entry = exampleSpec es ∧
      optNaive g.first_seen ∧ optNaive g.last_seen := by
  induction es using List.reverseRecOn with
  | nil => exact ⟨mkGroup sig, rfl, rfl, trivial, trivial⟩
  | append_singleton es e ih =>
    have hes : ∀ x ∈ es, naiveE x = true :=
      fun x hx => h x (List.mem_append_left _ hx)
    have he : naiveE e = true :=
      h e (List.mem_append_right _ (List.mem_singleton.mpr rfl))
    obtain ⟨g, hg, hexeq, hf, hl⟩ := ih hes
    have hexn : ∀ ex, g.example_entry = some ex → naiveE ex = true := by
      intro ex hx
      rw [hexeq] at hx
      exact hes ex (exampleSpec_mem hx)
    obtain ⟨fs2, ls2, hadd, hfn, hln⟩ := addEntry_ok hf hl hexn he
    refine ⟨{ g with entries := g.entries ++ [e], count := g.count + 1, first_seen := fs2, last_seen := ls2, example_entry := exStep g.example_entry e }, ?_, ?_, hfn, hln⟩
    · rw [addAll_append, hg]
      show addEntry g e = _
      exact hadd
    · show exStep g.example_entry e = _
      rw [hexeq, exampleSpec_append]

/-- C5 (amended): after any sequence of `add_entry` operations on a fresh
group (over entries whose timestamps are offset-naive, so that no comparison
raises), the example entry is the member with the most recent timestamp,
with ties between equal timestamps resolved in favor of the **first**
member encountered; a member with no timestamp never replaces an example
that has one, but is accepted as the first example when none exists yet. -/
theorem c5_example_contract (sig : Str) (es : List LogEntry)
    (h : ∀ x ∈ es, naiveE x = true) :
    (addAll (mkGroup sig) es).map (fun g => g.example_entry) =
      .ok (exampleSpec es) := by
  obtain ⟨g, hg, hexeq, _, _⟩ := addAll_ok sig es h
  rw [hg]
  simp [Except.map, hexeq]

/-- C5 (witness): the contract evaluated on two concrete tied entries. -/
theorem c5_witness :
    (addAll (mkGroup (str "sg")) [entA, entB]).map (fun g => g.example_entry) =
      .ok (exampleSpec [entA, entB]) :=
  c5_example_contract (str "sg") [entA, entB] (by decide)

/-- C3 (amended): the exception-type component of the signature is the
leftmost match of `(\w+Error|Exception):` — the token must be followed by a
colon, and the second alternative is the bare literal `Exception`, so
`CustomException:` contributes only `Exception` (see `c3_witness`) and a
token with no following colon contributes nothing (see
`c3_colon_required`).  The first conjunct states that the scan returns the
leftmost per-position match; the second that the component is omitted
exactly when no position matches; the third ties the component into the
signature parts for an entry without stack lines. -/
theorem c3_exception_component :
    (∀ (m : Str) (i : Nat) (tok : Str),
      excAt (m.drop i) = some tok → (∀ j, j < i → excAt (m.drop j) = none) →
      excFirst m = some tok) ∧
    (∀ m : Str, excFirst m = none ↔ ∀ i, excAt (m.drop i) = none) ∧
    (∀ e : LogEntry, e.traceback = [] →
      e.sigParts = [e.level, e.logger] ++ (excFirst e.message).toList) := by
  refine ⟨?_, ?_, ?_⟩
  · intro m
    induction m with
    | nil =>
      intro i tok hat _
      rw [List.drop_nil] at hat
      cases hat
    | cons c rest ih =>
      intro i tok hat hbefore
      cases i with
      | zero =>
        rw [List.drop_zero] at hat
        rw [excFirst, hat]
      | succ i =>
        have h0 : excAt (c :: rest) = none := by
          have := hbefore 0 (Nat.succ_pos i)
          rwa [List.drop_zero] at this
        rw [excFirst, h0]
        exact ih i tok hat (fun j hj => hbefore (j + 1) (by omega))
  · intro m
    induction m with
    | nil =>
      simp only [excFirst, List.drop_nil]
      exact ⟨fun _ _ => rfl, fun _ => trivial⟩
    | cons c rest ih =>
      constructor
      · intro h i
        rw [excFirst] at h
        rcases hat : excAt (c :: rest) with _ | g
        · rw [hat] at h
          cases i with
          | zero => rwa [List.drop_zero]
          | succ i => exact ih.mp h i
        · rw [hat] at h; cases h
      · intro h
        have h0 := h 0
        rw [List.drop_zero] at h0
        rw [excFirst, h0]
        exact ih.mpr (fun i => h (i + 1))
  · intro e he
    simp [LogEntry.sigParts, he]

/-- C3 (witness): the leftmost-match rule applied at the concrete message
`x CustomException: y`, whose matching position is 8 and whose contributed
token is the bare `Exception`. -/
theorem c3_witness :
    excFirst (str "x CustomException: y") = some (str "Exception") :=
  c3_exception_component.1 (str "x CustomException: y") 8 (str "Exception")
    (by decide) (by decide)

theorem stepLine_blank (st : PState) (n : Nat) (l : Str) (h : rstrip l = []) :
    stepLine st n l = st := by
  simp [stepLine, h]

theorem stepLine_tb (st : PState) (n : Nat) (l : Str) (e : LogEntry)
    (hc : st.current = some e) (hne : rstrip l ≠ [])
    (hp : parseLogLine (rstrip l) = none)
    (htb : st.inTb = true ∨ isTracebackLine (rstrip l) = true) :
    stepLine st n l =
      { st with current := some { e with traceback := e.traceback ++ [rstrip l] },
                inTb := true } := by
  simp only [stepLine, hp]
  rw [if_neg (by simpa [List.isEmpty_iff] using hne)]
  rw [hc]
  have hor : (st.inTb || isTracebackLine (rstrip l)) = true := by
    rcases htb with htb | htb <;> simp [htb]
  simp [hor]

/-- C8: a blank (empty-after-rstrip) line is a strict no-op of the parsing
state machine — it neither opens, closes, nor finalizes an entry and leaves
the in-traceback flag unchanged (first conjunct); a line matching no
recognizer never finalizes anything and never starts a new entry — the open
entry keeps its provenance identity (second conjunct); and a blank line
strictly between two stack-trace fragment lines leaves both fragments in
the same entry's stack lines (third conjunct). -/
theorem c8_blank_containment :
    (∀ (st : PState) (n : Nat) (l : Str), rstrip l = [] → stepLine st n l = st) ∧
    (∀ (st : PState) (n : Nat) (l : Str), parseLogLine (rstrip l) = none →
      (stepLine st n l).entries = st.entries ∧
      (stepLine st n l).current.map entryId = st.current.map entryId) ∧
    (∀ (st : PState) (n1 n2 n3 : Nat) (f1 b f2 : Str) (e : LogEntry),
      st.current = some e → rstrip b = [] →
      rstrip f1 ≠ [] → rstrip f2 ≠ [] →
      parseLogLine (rstrip f1) = none → parseLogLine (rstrip f2) = none →
      (st.inTb = true ∨ isTracebackLine (rstrip f1) = true) →
      stepLine (stepLine (stepLine st n1 f1) n2 b) n3 f2 =
        { st with
            current := some { e with
              traceback := e.traceback ++ [rstrip f1, rstrip f2] },
            inTb := true }) := by
  refine ⟨stepLine_blank, ?_, ?_⟩
  · intro st n l h
    by_cases hemp : rstrip l = []
    · rw [stepLine_blank st n l hemp]
      exact ⟨rfl, rfl⟩
    · simp only [stepLine, h]
      rw [if_neg (by simpa [List.isEmpty_iff] using hemp)]
      rcases hc : st.current with _ | e
      · exact ⟨rfl, by rw [hc]⟩
      · by_cases htb : (st.inTb || isTracebackLine (rstrip l)) = true
        · simp [htb, entryId]
        · simp [htb, entryId]
  · intro st n1 n2 n3 f1 b f2 e hc hbb hf1 hf2 hp1 hp2 htb
    rw [stepLine_tb st n1 f1 e hc hf1 hp1 htb]
    rw [stepLine_blank _ n2 b hbb]
    rw [stepLine_tb _ n3 f2 { e with traceback := e.traceback ++ [rstrip f1] }
      rfl hf2 hp2 (Or.inl rfl)]
    simp

def entC : LogEntry :=
  { level := str "ERROR", logger := str "app", message := str "boom",
    raw_line := str "x", line_number := 1 }

/-- C8 (witness): the containment applied to a concrete open entry, a
concrete stack frame, a blank line, and a concrete continuation. -/
theorem c8_witness :
    stepLine (stepLine (stepLine ⟨[], some entC, false⟩ 2
        (str "  File \"/app/x.py\", line 1, in f")) 3 (str " ")) 4
        (str "ValueError: nope") =
      { entries := [], current := some { entC with
          traceback := entC.traceback ++
            [rstrip (str "  File \"/app/x.py\", line 1, in f"),
             rstrip (str "ValueError: nope")] },
        inTb := true } :=
  c8_blank_containment.2.2 ⟨[], some entC, false⟩ 2 3 4
    (str "  File \"/app/x.py\", line 1, in f") (str " ") (str "ValueError: nope")
    entC rfl (by decide) (by decide) (by decide) (by decide) (by decide)
    (Or.inr (by decide))
